import Mathlib

/-!
Shallow embedding of the audio backend of `app-next-record-screen`
(`src-tauri/src/audio/enhance.rs`, `src-tauri/src/audio/wav.rs`,
`src-tauri/src/transcription/engine.rs`) together with proofs about the
behaviour claimed in the specification.

Modelling conventions:
* Rust machine integers become `Nat` with explicit `% 2^w` where wrap-around
  matters; `f32` bit patterns in byte-level code become `Nat` values `< 2^32`.
* `f32`/`f64` sample values in the numeric kernels become `ℚ`; transcendental
  library calls (`cos`, `sqrt`) and external native code (the RNNoise
  `process_frame`, the ONNX sessions, the tokenizer) become explicit function
  parameters quantified in the theorems, so every definition stays executable.
* Fallible operations return `Except String`.
-/

namespace RecordScreen

/-! ## Little-endian byte serialization (`u16::to_le_bytes` and friends) -/

/-- `u16::to_le_bytes`: the two little-endian bytes of a 16-bit value. -/
def u16ToLe (x : Nat) : List Nat := [x % 256, x / 256 % 256]

/-- `u32::to_le_bytes`: the four little-endian bytes of a 32-bit value. -/
def u32ToLe (x : Nat) : List Nat :=
  [x % 256, x / 256 % 256, x / 65536 % 256, x / 16777216 % 256]

/-- `u16::from_le_bytes` on two bytes. -/
def leToU16 (a b : Nat) : Nat := a + 256 * b

/-- `u32::from_le_bytes` on four bytes. -/
def leToU32 (a b c d : Nat) : Nat := a + 256 * b + 65536 * c + 16777216 * d

theorem u16ToLe_length (x : Nat) : (u16ToLe x).length = 2 := rfl

theorem u32ToLe_length (x : Nat) : (u32ToLe x).length = 4 := rfl

theorem leToU32_u32ToLe (x : Nat) (h : x < 4294967296) :
    leToU32 (x % 256) (x / 256 % 256) (x / 65536 % 256) (x / 16777216 % 256) = x := by
  simp only [leToU32]
  omega

theorem leToU16_u16ToLe (x : Nat) (h : x < 65536) :
    leToU16 (x % 256) (x / 256 % 256) = x := by
  simp only [leToU16]
  omega

/-! ## WAV format info (`WavInfo` in enhance.rs) -/

/-- Minimal WAV format info extracted from a header (`WavInfo` in enhance.rs).
`channels`, `bits_per_sample` are `u16`; `sample_rate`, `data_size` are `u32`;
`data_offset` is `u64`; all rendered as `Nat`. -/
structure WavInfo where
  channels : Nat
  sample_rate : Nat
  bits_per_sample : Nat
  is_float : Bool
  data_offset : Nat
  data_size : Nat
deriving Repr, DecidableEq

/-- The 44-byte RIFF/WAVE header laid out by `write_wav_f32` (enhance.rs) and
by `AudioWavWriter::write_header` (wav.rs); both write IEEE-float format tag 3
and 32 bits per sample.  `block_align` is a `u16` product and `byte_rate` and
`chunk_size` are `u32` arithmetic in the source, hence the explicit mods. -/
def mkWavHeader (channels sampleRate dataSize : Nat) : List Nat :=
  let blockAlign := channels * 4 % 65536
  let byteRate := sampleRate * blockAlign % 4294967296
  let chunkSize := (36 + dataSize) % 4294967296
  [82, 73, 70, 70] ++ u32ToLe chunkSize ++ [87, 65, 86, 69] ++
    [102, 109, 116, 32] ++ u32ToLe 16 ++ u16ToLe 3 ++ u16ToLe channels ++
    u32ToLe sampleRate ++ u32ToLe byteRate ++ u16ToLe blockAlign ++ u16ToLe 32 ++
    [100, 97, 116, 97] ++ u32ToLe dataSize

theorem mkWavHeader_length (c r d : Nat) : (mkWavHeader c r d).length = 44 := rfl

/-- `mkWavHeader` as one flat 44-byte list (the form the byte-oriented
parsing lemmas compute against). -/
theorem mkWavHeader_eq_flat (c r d : Nat) :
    mkWavHeader c r d =
      [82, 73, 70, 70,
       (36 + d) % 4294967296 % 256, (36 + d) % 4294967296 / 256 % 256,
       (36 + d) % 4294967296 / 65536 % 256, (36 + d) % 4294967296 / 16777216 % 256,
       87, 65, 86, 69, 102, 109, 116, 32, 16, 0, 0, 0, 3, 0,
       c % 256, c / 256 % 256,
       r % 256, r / 256 % 256, r / 65536 % 256, r / 16777216 % 256,
       r * (c * 4 % 65536) % 4294967296 % 256,
       r * (c * 4 % 65536) % 4294967296 / 256 % 256,
       r * (c * 4 % 65536) % 4294967296 / 65536 % 256,
       r * (c * 4 % 65536) % 4294967296 / 16777216 % 256,
       c * 4 % 65536 % 256, c * 4 % 65536 / 256 % 256, 32, 0,
       100, 97, 116, 97,
       d % 256, d / 256 % 256, d / 65536 % 256, d / 16777216 % 256] := by
  simp only [mkWavHeader, u16ToLe, u32ToLe, List.cons_append, List.nil_append]

/-! ## WAV reading (enhance.rs `read_wav_header` / `read_wav_f32`)

A file is a byte list.  `Seek`+`read_exact` on a `BufReader` becomes
`readExact bs off n`, which fails exactly when fewer than `n` bytes exist at
offset `off` (seeking past EOF succeeds in Rust; the subsequent read fails). -/

/-- Seek to `off` and `read_exact` `n` bytes. -/
def readExact (bs : List Nat) (off n : Nat) : Option (List Nat) :=
  if off + n ≤ bs.length then some ((bs.drop off).take n) else none

/-- The `chunk_size` field of an 8-byte chunk header (`u32::from_le_bytes`
of bytes 4..8). -/
def chunkSize (ck : List Nat) : Nat :=
  leToU32 (ck.getD 4 0) (ck.getD 5 0) (ck.getD 6 0) (ck.getD 7 0)

/-- The chunk-scan loop of `read_wav_header`: starting at `off`, read an
8-byte chunk header; on `data` return (data offset, declared size), otherwise
skip the declared size and continue.  The Rust loop advances the reader by at
least 8 bytes per iteration and errors at EOF, so `bs.length + 1` units of
fuel can never be exhausted before the EOF error fires. -/
def findData (bs : List Nat) : Nat → Nat → Option (Nat × Nat)
  | _, 0 => none
  | off, fuel + 1 =>
    (readExact bs off 8).elim none fun ck =>
      if ck.take 4 = [100, 97, 116, 97] then some (off + 8, chunkSize ck)
      else findData bs (off + 8 + chunkSize ck) fuel

/-- The `WavInfo` assembled by `read_wav_header` from the fixed 44-byte
header and the located data chunk. -/
def wavInfoOfHeader (header : List Nat) (dataChunk : Nat × Nat) : WavInfo :=
  { channels := leToU16 (header.getD 22 0) (header.getD 23 0),
    sample_rate :=
      leToU32 (header.getD 24 0) (header.getD 25 0) (header.getD 26 0) (header.getD 27 0),
    bits_per_sample := leToU16 (header.getD 34 0) (header.getD 35 0),
    is_float := leToU16 (header.getD 20 0) (header.getD 21 0) = 3,
    data_offset := dataChunk.1, data_size := dataChunk.2 }

/-- Validation and field extraction of `read_wav_header` once the 44 header
bytes are in hand: check the RIFF/WAVE magic, then scan from offset 12. -/
def parseWavHeader (bs header : List Nat) : Except String WavInfo :=
  if header.take 4 = [82, 73, 70, 70] ∧ (header.drop 8).take 4 = [87, 65, 86, 69] then
    (findData bs 12 (bs.length + 1)).elim (.error "Read chunk header")
      fun dc => .ok (wavInfoOfHeader header dc)
  else .error "Not a valid WAV file"

/-- `read_wav_header`: read 44 bytes, then parse them. -/
def readWavHeader (bs : List Nat) : Except String WavInfo :=
  (readExact bs 0 44).elim (.error "Read WAV header") (parseWavHeader bs)

/-- `chunks_exact(4)` over the data bytes followed by `f32::from_le_bytes`;
samples are carried as their 32-bit patterns, so the byte decode is `leToU32`.
A trailing partial chunk is dropped, as by `chunks_exact`. -/
def chunksToF32 : List Nat → List Nat
  | a :: b :: c :: d :: rest => leToU32 a b c d :: chunksToF32 rest
  | _ => []

/-- `chunks_exact(2)` over the data bytes giving 16-bit patterns. -/
def chunksToI16 : List Nat → List Nat
  | a :: b :: rest => leToU16 a b :: chunksToI16 rest
  | _ => []

/-- Successful 32-bit-float payload decode of `read_wav_f32`. -/
def f32Payload (info : WavInfo) (bytes : List Nat) : Except String (List Nat × WavInfo) :=
  .ok (chunksToF32 bytes, info)

/-- Successful 16-bit-integer payload decode of `read_wav_f32` (each 16-bit
pattern converted by `cvt16`). -/
def i16Payload (cvt16 : Nat → Nat) (info : WavInfo) (bytes : List Nat) :
    Except String (List Nat × WavInfo) :=
  .ok ((chunksToI16 bytes).map cvt16, info)

/-- The format dispatch and data read of `read_wav_f32` after the header has
been parsed.  `cvt16` abstracts the lossless-in-Rust conversion
`i16::from_le_bytes(..) as f32 / 32768.0` from a 16-bit pattern to the
resulting `f32` bit pattern (floating point, kept as a parameter). -/
def readWavData (cvt16 : Nat → Nat) (bs : List Nat) (info : WavInfo) :
    Except String (List Nat × WavInfo) :=
  if info.is_float ∧ info.bits_per_sample = 32 then
    (readExact bs info.data_offset info.data_size).elim
      (.error "Read audio data") (f32Payload info)
  else if ¬info.is_float ∧ info.bits_per_sample = 16 then
    (readExact bs info.data_offset info.data_size).elim
      (.error "Read audio data") (i16Payload cvt16 info)
  else .error "Unsupported WAV format"

def readWavF32 (cvt16 : Nat → Nat) (bs : List Nat) :
    Except String (List Nat × WavInfo) :=
  (readWavHeader bs).bind (readWavData cvt16 bs)

/-- `write_wav_f32`: a 44-byte header (32-bit IEEE-float format, the input's
channel count and sample rate) followed by the little-endian bytes of every
sample; `data_size` is `(samples.len() * 4) as u32`. -/
def writeWavF32 (samples : List Nat) (info : WavInfo) : List Nat :=
  mkWavHeader info.channels info.sample_rate (samples.length * 4 % 4294967296) ++
    samples.flatMap u32ToLe

/-! ### Round-trip lemmas for the enhance.rs reader/writer -/

theorem length_flatMap_u32ToLe (samples : List Nat) :
    (samples.flatMap u32ToLe).length = 4 * samples.length := by
  induction samples with
  | nil => rfl
  | cons s rest ih => simp [List.flatMap_cons, u32ToLe, ih]; ring

theorem chunksToF32_flatMap (samples : List Nat) (h : ∀ s ∈ samples, s < 4294967296) :
    chunksToF32 (samples.flatMap u32ToLe) = samples := by
  induction samples with
  | nil => rfl
  | cons s rest ih =>
    have hs : s < 4294967296 := h s (by simp)
    simp only [List.flatMap_cons, u32ToLe, List.cons_append, List.nil_append]
    rw [chunksToF32]
    rw [ih fun x hx => h x (by simp [hx])]
    rw [leToU32_u32ToLe s hs]

theorem readExact_header_front (c r ds : Nat) (data : List Nat) (off n : Nat)
    (hoff : off + n ≤ 44) :
    readExact (mkWavHeader c r ds ++ data) off n =
      some ((mkWavHeader c r ds).drop off |>.take n) := by
  rw [readExact, if_pos (by rw [List.length_append, mkWavHeader_length]; omega)]
  rw [List.drop_append_eq_append_drop, mkWavHeader_length,
    Nat.sub_eq_zero_of_le (by omega), List.drop_zero,
    List.take_append_eq_append_take, List.length_drop, mkWavHeader_length,
    Nat.sub_eq_zero_of_le (by omega), List.take_zero, List.append_nil]

/-- The chunk scan of `read_wav_header`, run on a file laid out by the
writers, skips the `fmt ` chunk and finds the `data` chunk at offset 44. -/
theorem findData_mkWavHeader (c r ds : Nat) (data : List Nat) (f : Nat)
    (hds : ds < 4294967296) :
    findData (mkWavHeader c r ds ++ data) 12 (f + 1 + 1) = some (44, ds) := by
  rw [findData]
  rw [readExact_header_front c r ds data 12 8 (by omega)]
  rw [show ((mkWavHeader c r ds).drop 12).take 8 = [102, 109, 116, 32, 16, 0, 0, 0] from rfl]
  rw [Option.elim_some]
  rw [if_neg (by decide)]
  rw [show chunkSize [102, 109, 116, 32, 16, 0, 0, 0] = 16 from rfl]
  show findData (mkWavHeader c r ds ++ data) 36 (f + 1) = some (44, ds)
  rw [findData]
  rw [readExact_header_front c r ds data 36 8 (by omega)]
  rw [show ((mkWavHeader c r ds).drop 36).take 8 =
      100 :: 97 :: 116 :: 97 :: u32ToLe ds from rfl]
  rw [Option.elim_some]
  rw [if_pos (show List.take 4 (100 :: 97 :: 116 :: 97 :: u32ToLe ds) =
      [100, 97, 116, 97] from rfl)]
  rw [show chunkSize (100 :: 97 :: 116 :: 97 :: u32ToLe ds) =
      leToU32 (ds % 256) (ds / 256 % 256) (ds / 65536 % 256) (ds / 16777216 % 256) from rfl]
  rw [leToU32_u32ToLe ds hds]

/-- Field extraction from a header laid out by the writers. -/
theorem wavInfoOfHeader_mkWavHeader (c r d : Nat) (dc : Nat × Nat) :
    wavInfoOfHeader (mkWavHeader c r d) dc =
      { channels := leToU16 (c % 256) (c / 256 % 256),
        sample_rate := leToU32 (r % 256) (r / 256 % 256)
          (r / 65536 % 256) (r / 16777216 % 256),
        bits_per_sample := 32, is_float := true,
        data_offset := dc.1, data_size := dc.2 } := by
  rw [mkWavHeader_eq_flat]
  rfl

/-- Parsing the header of a file produced by `write_wav_f32` recovers the
channel count and sample rate, reports IEEE float with 32 bits, and locates
the data chunk at offset 44 with the (possibly wrapped) declared size. -/
theorem readWavHeader_writeWavF32 (samples : List Nat) (info : WavInfo)
    (hc : info.channels < 65536) (hr : info.sample_rate < 4294967296) :
    readWavHeader (writeWavF32 samples info) =
      .ok { channels := info.channels, sample_rate := info.sample_rate,
            bits_per_sample := 32, is_float := true,
            data_offset := 44, data_size := samples.length * 4 % 4294967296 } := by
  set ds := samples.length * 4 % 4294967296 with hds
  have hdslt : ds < 4294967296 := Nat.mod_lt _ (by norm_num)
  have hsplit : writeWavF32 samples info =
      mkWavHeader info.channels info.sample_rate ds ++ samples.flatMap u32ToLe := rfl
  have hlen : (writeWavF32 samples info).length = 44 + 4 * samples.length := by
    rw [hsplit, List.length_append, mkWavHeader_length, length_flatMap_u32ToLe]
  rw [readWavHeader]
  rw [hsplit, readExact_header_front _ _ _ _ 0 44 (by omega), List.drop_zero,
    List.take_of_length_le (le_of_eq (mkWavHeader_length _ _ _))]
  rw [Option.elim_some]
  rw [parseWavHeader]
  rw [if_pos ⟨rfl, rfl⟩]
  have hfuel : (mkWavHeader info.channels info.sample_rate ds ++
      samples.flatMap u32ToLe).length + 1 = (4 * samples.length + 43) + 1 + 1 := by
    rw [List.length_append, mkWavHeader_length, length_flatMap_u32ToLe]
    omega
  rw [hfuel, findData_mkWavHeader _ _ _ _ _ hdslt]
  rw [Option.elim_some]
  rw [wavInfoOfHeader_mkWavHeader]
  rw [leToU16_u16ToLe info.channels hc, leToU32_u32ToLe info.sample_rate hr]

theorem exceptBind_ok {α β : Type} (a : α) (f : α → Except String β) :
    (Except.ok a : Except String α).bind f = f a := rfl

/-- Reading `n ≤ data length` bytes at offset 44 of a written file returns
the first `n` payload bytes. -/
theorem readExact_writeWavF32_data (samples : List Nat) (info : WavInfo) (n : Nat)
    (hn : n ≤ 4 * samples.length) :
    readExact (writeWavF32 samples info) 44 n =
      some ((samples.flatMap u32ToLe).take n) := by
  have hlen : (writeWavF32 samples info).length = 44 + 4 * samples.length := by
    rw [writeWavF32, List.length_append, mkWavHeader_length, length_flatMap_u32ToLe]
  rw [readExact, if_pos (by omega)]
  rw [writeWavF32, List.drop_append_eq_append_drop, mkWavHeader_length,
    List.drop_eq_nil_of_le (le_of_eq (mkWavHeader_length _ _ _)), Nat.sub_self,
    List.drop_zero, List.nil_append]

/-- On a 32-bit IEEE-float `WavInfo`, `readWavData` takes the float branch. -/
theorem readWavData_f32 (cvt16 : Nat → Nat) (bs : List Nat) (c r off n : Nat) :
    readWavData cvt16 bs ⟨c, r, 32, true, off, n⟩ =
      (readExact bs off n).elim (.error "Read audio data")
        (f32Payload ⟨c, r, 32, true, off, n⟩) := by
  rw [readWavData, if_pos ⟨rfl, rfl⟩]

/-- C3 (amended): for every `f32` sample vector whose payload fits the 32-bit
data-size field (`samples.len() * 4 < 2^32`), reading back a WAV file written
by `write_wav_f32` yields exactly the original samples, and the format info
read back has `is_float = true`, `bits_per_sample = 32`, and the original
channel count and sample rate.  The source truncates the data size with
`(samples.len() * 4) as u32`, so without the bound the round trip fails (see
the counterexample). -/
theorem wav_write_read_roundtrip (cvt16 : Nat → Nat) (samples : List Nat)
    (info : WavInfo) (hs : ∀ s ∈ samples, s < 4294967296)
    (hn : samples.length * 4 < 4294967296)
    (hc : info.channels < 65536) (hr : info.sample_rate < 4294967296) :
    readWavF32 cvt16 (writeWavF32 samples info) =
      .ok (samples,
        { channels := info.channels, sample_rate := info.sample_rate,
          bits_per_sample := 32, is_float := true,
          data_offset := 44, data_size := samples.length * 4 }) := by
  rw [readWavF32, readWavHeader_writeWavF32 samples info hc hr, exceptBind_ok]
  rw [Nat.mod_eq_of_lt hn]
  rw [readWavData_f32]
  rw [readExact_writeWavF32_data samples info _ (by omega)]
  rw [List.take_of_length_le (by rw [length_flatMap_u32ToLe]; omega)]
  rw [Option.elim_some, f32Payload, chunksToF32_flatMap samples hs]

/-- Witness for C3 (amended) at a concrete two-sample stereo input. -/
theorem wav_write_read_roundtrip_witness :
    readWavF32 (fun b => b)
        (writeWavF32 [1, 4294967295]
          { channels := 2, sample_rate := 44100, bits_per_sample := 16,
            is_float := false, data_offset := 0, data_size := 0 }) =
      .ok ([1, 4294967295],
        { channels := 2, sample_rate := 44100, bits_per_sample := 32,
          is_float := true, data_offset := 44, data_size := 8 }) := by
  rw [wav_write_read_roundtrip (fun b => b) [1, 4294967295] _
    (by decide) (by decide) (by decide) (by decide)]
  rfl

/-- C3 counterexample: at 2^30 samples the stored data size wraps to 0, so the
reader returns no samples at all; the round-trip law as stated (for every
sample vector) is false on the code. -/
theorem wav_write_read_counterexample :
    (readWavF32 (fun b => b)
        (writeWavF32 (List.replicate 1073741824 0)
          { channels := 1, sample_rate := 48000, bits_per_sample := 32,
            is_float := true, data_offset := 44, data_size := 0 })).map Prod.fst =
      Except.ok [] ∧ List.replicate 1073741824 (0 : Nat) ≠ [] := by
  constructor
  · rw [readWavF32, readWavHeader_writeWavF32 _ _ (by decide) (by decide), exceptBind_ok]
    rw [List.length_replicate]
    rw [show 1073741824 * 4 % 4294967296 = 0 by norm_num]
    rw [readWavData_f32]
    rw [readExact_writeWavF32_data _ _ 0 (Nat.zero_le _)]
    rw [List.take_zero, Option.elim_some, f32Payload]
    rfl
  · apply List.ne_nil_of_length_pos
    rw [List.length_replicate]
    norm_num

/-! ## Audio processing kernels (enhance.rs), over ℚ sample values

`f32` sample arithmetic is modelled over `ℚ` (decimal literals at face
value); the transcendental `cos` of the fade curve and the stateful RNNoise
`process_frame` (external `nnnoiseless` crate) are function parameters. -/

/-- `FRAME_SIZE = DenoiseState::FRAME_SIZE` — 480 samples. -/
def FRAME_SIZE : Nat := 480

/-- `chunks_exact(k)`: the complete `k`-chunks of a list; a trailing partial
chunk is dropped.  Rust panics on `k = 0` (the model returns `[]`; callers
below only use `k = channels ≥ 2`). -/
def chunksExact (k : Nat) (l : List ℚ) : List (List ℚ) :=
  if _h : 0 < k ∧ k ≤ l.length then l.take k :: chunksExact k (l.drop k) else []
termination_by l.length
decreasing_by simp only [List.length_drop]; omega

/-- `stereo_to_mono`: average each interleaved frame of `channels` samples. -/
def stereoToMono (samples : List ℚ) (channels : Nat) : List ℚ :=
  if channels = 1 then samples
  else (chunksExact channels samples).map fun frame => frame.sum / (channels : ℚ)

/-- `mono_to_multichannel`: duplicate each mono sample to every channel. -/
def monoToMultichannel (mono : List ℚ) (channels : Nat) : List ℚ :=
  if channels = 1 then mono
  else mono.flatMap fun s => List.replicate channels s

/-- The per-frame loop of `denoise_mono`, rendered as recursion on the
remaining samples: each iteration consumes up to `FRAME_SIZE` samples,
runs the denoiser, and emits `clean·intensity + original·(1−intensity)` for
the `len` live samples.  `proc fi i` is the denoiser output `output_frame[i]`
at frame `fi` (the external stateful `DenoiseState::process_frame`, with the
`* 32767.0` input scaling absorbed into the abstract function). -/
def denoiseFrames (proc : Nat → Nat → ℚ) (intensity : ℚ) (frameIdx : Nat)
    (mono : List ℚ) : List ℚ :=
  if _h : mono = [] then []
  else
    ((List.range (Nat.min FRAME_SIZE mono.length)).map fun i =>
      proc frameIdx i / 32767 * intensity + mono.getD i 0 * (1 - intensity)) ++
      denoiseFrames proc intensity (frameIdx + 1) (mono.drop FRAME_SIZE)
termination_by mono.length
decreasing_by
  have hpos : 0 < mono.length := List.length_pos.mpr _h
  simp only [FRAME_SIZE, List.length_drop]
  omega

/-- `denoise_mono`: clamp the intensity to [0, 1], short-circuit at 0, else
run the frame loop. -/
def denoiseMono (proc : Nat → Nat → ℚ) (mono : List ℚ) (intensity : ℚ) : List ℚ :=
  if max 0 (min intensity 1) = 0 then mono
  else denoiseFrames proc (max 0 (min intensity 1)) 0 mono

/-- The running maximum of `|s|` computed by `peak_normalize`. -/
def maxAbs (samples : List ℚ) : ℚ :=
  samples.foldl (fun m s => if |s| > m then |s| else m) 0

/-- `peak_normalize`: skip near-silence and near-target buffers, otherwise
scale every sample by `target_peak / max_abs`. -/
def peakNormalize (samples : List ℚ) (targetPeak : ℚ) : List ℚ :=
  if maxAbs samples < 1 / 1000 ∨ |maxAbs samples - targetPeak| < 1 / 100 then samples
  else samples.map fun s => s * (targetPeak / maxAbs samples)

/-- `std::f32::consts::PI`: the `f32` closest to π, as an exact rational. -/
def piF32 : ℚ := 13176795 / 4194304

/-- The cosine fade curve `0.5 * (1.0 - cos(PI * t))` at `t = i / fadeSamples`
(`cosF` abstracts `f32::cos`). -/
def fadeGain (cosF : ℚ → ℚ) (i fadeSamples : Nat) : ℚ :=
  1 / 2 * (1 - cosF (piF32 * ((i : ℚ) / (fadeSamples : ℚ))))

/-- The fade-in loop of `apply_fade`: `samples[i] *= g(i)` for `i < n`. -/
def fadeInGo (g : Nat → ℚ) (n : Nat) (samples : List ℚ) : List ℚ :=
  (List.range n).foldl (fun l i => l.set i (l.getD i 0 * g i)) samples

/-- The fade-out loop of `apply_fade`:
`samples[len - 1 - i] *= g(i)` for `i < n`. -/
def fadeOutGo (g : Nat → ℚ) (len n : Nat) (samples : List ℚ) : List ℚ :=
  (List.range n).foldl
    (fun l i => l.set (len - 1 - i) (l.getD (len - 1 - i) 0 * g i)) samples

/-- `apply_fade`: cosine fade-in then fade-out, with the fade length
`(sample_rate * fade_ms) / 1000` capped at half the signal length. -/
def applyFade (cosF : ℚ → ℚ) (samples : List ℚ) (sampleRate fadeMs : Nat) : List ℚ :=
  fadeOutGo (fun i => fadeGain cosF i (Nat.min (sampleRate * fadeMs / 1000) (samples.length / 2)))
    samples.length (Nat.min (sampleRate * fadeMs / 1000) (samples.length / 2))
    (fadeInGo (fun i => fadeGain cosF i (Nat.min (sampleRate * fadeMs / 1000) (samples.length / 2)))
      (Nat.min (sampleRate * fadeMs / 1000) (samples.length / 2)) samples)

/-- The optional normalization step of `denoise_wav` (target −1 dBFS). -/
def normalizeStep (normalize : Bool) (l : List ℚ) : List ℚ :=
  if normalize then peakNormalize l (891 / 1000) else l

/-- `denoise_wav` at the sample level (file I/O stripped: the reader's output
`(samples, info)` is the input, and the returned list is what
`write_wav_f32` receives, together with the unchanged `info`): require
48 kHz, downmix to mono, denoise, upmix, optionally peak-normalize, and
apply the 50 ms fades. -/
def denoiseWavSamples (proc : Nat → Nat → ℚ) (cosF : ℚ → ℚ) (samples : List ℚ)
    (info : WavInfo) (intensity : ℚ) (normalize : Bool) : Except String (List ℚ) :=
  if info.sample_rate ≠ 48000 then .error "Expected 48kHz audio"
  else .ok (applyFade cosF
    (normalizeStep normalize
      (monoToMultichannel
        (denoiseMono proc (stereoToMono samples info.channels) intensity)
        info.channels))
    info.sample_rate 50)

/-! ### Length preservation through the enhance pipeline -/

theorem chunksExact_length_aux (k : Nat) (hk : 0 < k) :
    ∀ (n : Nat) (l : List ℚ), l.length ≤ n →
      (chunksExact k l).length = l.length / k := by
  intro n
  induction n with
  | zero =>
    intro l h
    have hl : l = [] := List.eq_nil_of_length_eq_zero (by omega)
    subst hl
    rw [chunksExact, dif_neg (by simp only [List.length_nil]; omega)]
    simp
  | succ n ih =>
    intro l h
    rw [chunksExact]
    by_cases hc : 0 < k ∧ k ≤ l.length
    · rw [dif_pos hc, List.length_cons,
        ih (l.drop k) (by simp only [List.length_drop]; omega)]
      rw [List.length_drop, Nat.div_eq l.length k, if_pos ⟨hk, hc.2⟩]
    · rw [dif_neg hc, Nat.div_eq l.length k, if_neg (by tauto)]
      rfl

theorem chunksExact_length (k : Nat) (hk : 0 < k) (l : List ℚ) :
    (chunksExact k l).length = l.length / k :=
  chunksExact_length_aux k hk l.length l le_rfl

theorem natMin_eq_min (a b : Nat) : Nat.min a b = min a b := rfl

theorem stereoToMono_length (samples : List ℚ) (channels : Nat) (hk : 1 ≤ channels) :
    (stereoToMono samples channels).length = samples.length / channels := by
  rw [stereoToMono]
  by_cases h : channels = 1
  · rw [if_pos h, h, Nat.div_one]
  · rw [if_neg h, List.length_map, chunksExact_length channels (by omega)]

theorem denoiseFrames_length_aux (proc : Nat → Nat → ℚ) (q : ℚ) :
    ∀ (n fi : Nat) (mono : List ℚ), mono.length ≤ n →
      (denoiseFrames proc q fi mono).length = mono.length := by
  intro n
  induction n with
  | zero =>
    intro fi mono h
    have hm : mono = [] := List.eq_nil_of_length_eq_zero (by omega)
    subst hm
    rw [denoiseFrames, dif_pos rfl]
  | succ n ih =>
    intro fi mono h
    rw [denoiseFrames]
    by_cases hm : mono = []
    · rw [dif_pos hm, hm]
    · rw [dif_neg hm, List.length_append, List.length_map, List.length_range,
        ih (fi + 1) (mono.drop FRAME_SIZE)
          (by simp only [FRAME_SIZE, List.length_drop]; omega),
        List.length_drop]
      have : 0 < mono.length := List.length_pos.mpr hm
      simp only [FRAME_SIZE, natMin_eq_min]
      omega

theorem denoiseFrames_length (proc : Nat → Nat → ℚ) (q : ℚ) (fi : Nat) (mono : List ℚ) :
    (denoiseFrames proc q fi mono).length = mono.length :=
  denoiseFrames_length_aux proc q mono.length fi mono le_rfl

theorem denoiseMono_length (proc : Nat → Nat → ℚ) (mono : List ℚ) (intensity : ℚ) :
    (denoiseMono proc mono intensity).length = mono.length := by
  rw [denoiseMono]
  by_cases h : max 0 (min intensity 1) = 0
  · rw [if_pos h]
  · rw [if_neg h, denoiseFrames_length]

theorem length_flatMap_replicate (ch : Nat) :
    ∀ mono : List ℚ, (mono.flatMap fun s => List.replicate ch s).length =
      mono.length * ch := by
  intro mono
  induction mono with
  | nil => simp
  | cons s rest ih =>
    simp only [List.flatMap_cons, List.length_append, List.length_replicate,
      List.length_cons, ih]
    ring

theorem monoToMultichannel_length (mono : List ℚ) (channels : Nat) :
    (monoToMultichannel mono channels).length = mono.length * channels := by
  rw [monoToMultichannel]
  by_cases h : channels = 1
  · rw [if_pos h, h, Nat.mul_one]
  · rw [if_neg h, length_flatMap_replicate]

theorem peakNormalize_length (samples : List ℚ) (t : ℚ) :
    (peakNormalize samples t).length = samples.length := by
  rw [peakNormalize]
  by_cases h : maxAbs samples < 1 / 1000 ∨ |maxAbs samples - t| < 1 / 100
  · rw [if_pos h]
  · rw [if_neg h, List.length_map]

theorem normalizeStep_length (normalize : Bool) (l : List ℚ) :
    (normalizeStep normalize l).length = l.length := by
  rw [normalizeStep]
  by_cases h : normalize = true
  · rw [if_pos h, peakNormalize_length]
  · rw [if_neg h]

theorem fadeInGo_length (g : Nat → ℚ) :
    ∀ (n : Nat) (s : List ℚ), (fadeInGo g n s).length = s.length := by
  intro n
  induction n with
  | zero => intro s; rfl
  | succ n ih =>
    intro s
    rw [fadeInGo, List.range_succ, List.foldl_append, List.foldl_cons, List.foldl_nil]
    rw [List.length_set, ← fadeInGo, ih]

theorem fadeOutGo_length (g : Nat → ℚ) (len : Nat) :
    ∀ (n : Nat) (s : List ℚ), (fadeOutGo g len n s).length = s.length := by
  intro n
  induction n with
  | zero => intro s; rfl
  | succ n ih =>
    intro s
    rw [fadeOutGo, List.range_succ, List.foldl_append, List.foldl_cons, List.foldl_nil]
    rw [List.length_set, ← fadeOutGo, ih]

theorem applyFade_length (cosF : ℚ → ℚ) (samples : List ℚ) (rate ms : Nat) :
    (applyFade cosF samples rate ms).length = samples.length := by
  rw [applyFade, fadeOutGo_length, fadeInGo_length]

/-! ### What the fade loops do at each index -/

theorem list_set_oob {α : Type} (l : List α) (n : Nat) (a : α) (h : l.length ≤ n) :
    l.set n a = l := by
  induction l generalizing n with
  | nil => rfl
  | cons x xs ih =>
    cases n with
    | zero => simp at h
    | succ n => rw [List.set_cons_succ, ih n (by simpa using h)]

theorem fadeInGo_getD (g : Nat → ℚ) :
    ∀ (n : Nat) (s : List ℚ) (j : Nat),
      (fadeInGo g n s).getD j 0 =
        if j < n ∧ j < s.length then s.getD j 0 * g j else s.getD j 0 := by
  intro n
  induction n with
  | zero =>
    intro s j
    rw [fadeInGo, List.range_zero, List.foldl_nil, if_neg (by omega)]
  | succ n ih =>
    intro s j
    rw [fadeInGo, List.range_succ, List.foldl_append, List.foldl_cons,
      List.foldl_nil, ← fadeInGo]
    by_cases hj : j = n
    · subst hj
      by_cases hlen : j < s.length
      · rw [List.getD_eq_getElem?_getD,
          List.getElem?_set_self (by rw [fadeInGo_length]; exact hlen),
          Option.getD_some, ih s j, if_neg (by omega),
          if_pos ⟨Nat.lt_succ_self j, hlen⟩]
      · rw [list_set_oob _ _ _ (by rw [fadeInGo_length]; omega),
          ih s j, if_neg (by omega), if_neg (by omega)]
    · rw [List.getD_eq_getElem?_getD, List.getElem?_set_ne (by omega : n ≠ j),
        ← List.getD_eq_getElem?_getD, ih s j]
      by_cases hc : j < n ∧ j < s.length
      · rw [if_pos hc, if_pos ⟨by omega, hc.2⟩]
      · rw [if_neg hc, if_neg (by intro h2; exact hc ⟨by omega, h2.2⟩)]

theorem fadeOutGo_getD (g : Nat → ℚ) (len : Nat) :
    ∀ (n : Nat) (s : List ℚ) (j : Nat), len = s.length → 2 * n ≤ len →
      (fadeOutGo g len n s).getD j 0 =
        if len - n ≤ j ∧ j < len then s.getD j 0 * g (len - 1 - j)
        else s.getD j 0 := by
  intro n
  induction n with
  | zero =>
    intro s j hlen hn
    rw [fadeOutGo, List.range_zero, List.foldl_nil, if_neg (by omega)]
  | succ n ih =>
    intro s j hlen hn
    rw [fadeOutGo, List.range_succ, List.foldl_append, List.foldl_cons,
      List.foldl_nil, ← fadeOutGo]
    by_cases hj : j = len - 1 - n
    · subst hj
      rw [List.getD_eq_getElem?_getD,
        List.getElem?_set_self (by rw [fadeOutGo_length]; omega),
        Option.getD_some, ih s (len - 1 - n) hlen (by omega),
        if_neg (by omega), if_pos (by omega),
        show len - 1 - (len - 1 - n) = n from by omega]
    · rw [List.getD_eq_getElem?_getD,
        List.getElem?_set_ne (by omega : len - 1 - n ≠ j),
        ← List.getD_eq_getElem?_getD, ih s j hlen (by omega)]
      by_cases hc : len - n ≤ j ∧ j < len
      · rw [if_pos hc, if_pos ⟨by omega, hc.2⟩]
      · rw [if_neg hc, if_neg (by intro h2; exact hc ⟨by omega, h2.2⟩)]

/-- Samples outside both fade regions are untouched by `apply_fade`. -/
theorem applyFade_getD_middle (cosF : ℚ → ℚ) (s : List ℚ) (rate ms j : Nat)
    (hj1 : Nat.min (rate * ms / 1000) (s.length / 2) ≤ j)
    (hj2 : j + Nat.min (rate * ms / 1000) (s.length / 2) < s.length) :
    (applyFade cosF s rate ms).getD j 0 = s.getD j 0 := by
  rw [applyFade]
  rw [fadeOutGo_getD _ _ _ _ _ (fadeInGo_length _ _ _).symm (by omega),
    if_neg (by omega), fadeInGo_getD, if_neg (by intro h2; omega)]

/-- The gain of the cosine fade at `i = 0` is exactly 0 whenever
`cos 0 = 1` (true of `f32::cos`). -/
theorem fadeGain_zero (cosF : ℚ → ℚ) (f : Nat) (hcos : cosF 0 = 1) :
    fadeGain cosF 0 f = 0 := by
  rw [fadeGain]
  norm_num [hcos]

/-- With at least 2 samples and a positive requested fade length, the first
and last output samples of `apply_fade` are exactly 0. -/
theorem applyFade_first_last (cosF : ℚ → ℚ) (s : List ℚ) (rate ms : Nat)
    (hcos : cosF 0 = 1) (h2 : 2 ≤ s.length) (hms : 1 ≤ rate * ms / 1000) :
    (applyFade cosF s rate ms).getD 0 0 = 0 ∧
    (applyFade cosF s rate ms).getD (s.length - 1) 0 = 0 := by
  have hf1 : 1 ≤ Nat.min (rate * ms / 1000) (s.length / 2) := by
    rw [natMin_eq_min]
    omega
  have hf2 : 2 * Nat.min (rate * ms / 1000) (s.length / 2) ≤ s.length := by
    rw [natMin_eq_min]
    omega
  constructor
  · rw [applyFade]
    rw [fadeOutGo_getD _ _ _ _ _ (fadeInGo_length _ _ _).symm (by omega),
      if_neg (by omega), fadeInGo_getD, if_pos ⟨by omega, by omega⟩,
      fadeGain_zero cosF _ hcos, mul_zero]
  · rw [applyFade]
    rw [fadeOutGo_getD _ _ _ _ _ (fadeInGo_length _ _ _).symm (by omega),
      if_pos ⟨by omega, by omega⟩,
      show s.length - 1 - (s.length - 1) = 0 from by omega,
      fadeGain_zero cosF _ hcos, mul_zero]

/-! ### Claims C1, C2, C9, C10 about the enhance pipeline -/

theorem stereoToMono_one (samples : List ℚ) : stereoToMono samples 1 = samples := by
  rw [stereoToMono, if_pos rfl]

theorem monoToMultichannel_one (mono : List ℚ) : monoToMultichannel mono 1 = mono := by
  rw [monoToMultichannel, if_pos rfl]

theorem denoiseMono_zero (proc : Nat → Nat → ℚ) (mono : List ℚ) :
    denoiseMono proc mono 0 = mono := by
  rw [denoiseMono, if_pos (by norm_num)]

theorem exceptMap_ok {α β : Type} (a : α) (f : α → β) :
    (Except.ok a : Except String α).map f = .ok (f a) := rfl

/-- C1 counterexample: with intensity 0 on a mono 48 kHz file the claim
"output samples equal input samples exactly" fails, because `apply_fade`
always runs and zeroes the first sample (`cos 0 = 1`, so the fade gain at
`t = 0` is exactly 0; the cosine stub used here agrees with `f32::cos`
at 0, the only point that forces the inequality). -/
theorem denoise_identity_counterexample :
    denoiseWavSamples (fun _ _ => 0) (fun _ => 1) [1, 1, 1, 1]
        ⟨1, 48000, 32, true, 44, 16⟩ 0 false ≠ .ok [1, 1, 1, 1] := by
  intro h
  rw [denoiseWavSamples, if_neg (fun hne => hne rfl)] at h
  rw [show stereoToMono [1, 1, 1, 1]
      (WavInfo.channels ⟨1, 48000, 32, true, 44, 16⟩) =
      stereoToMono [1, 1, 1, 1] 1 from rfl, stereoToMono_one,
    denoiseMono_zero,
    show monoToMultichannel [1, 1, 1, 1]
      (WavInfo.channels ⟨1, 48000, 32, true, 44, 16⟩) =
      monoToMultichannel [1, 1, 1, 1] 1 from rfl, monoToMultichannel_one] at h
  injection h with h2
  have h3 := congrArg (fun l => l.getD 0 0) h2
  simp only [] at h3
  rw [show normalizeStep false [1, 1, 1, 1] = [1, 1, 1, 1] from rfl] at h3
  rw [(applyFade_first_last (fun _ => 1) [1, 1, 1, 1]
    (WavInfo.sample_rate ⟨1, 48000, 32, true, 44, 16⟩) 50 rfl (by norm_num)
    (by norm_num)).1] at h3
  norm_num at h3

/-- C1 (amended): a denoise call with intensity 0 on a mono (1-channel)
48 kHz input with `normalize = false` returns the input with only the 50 ms
cosine fade-in/out applied; every sample outside the first and last
`min(2400, len/2)` positions is returned unchanged.  (As stated, the claim
is false: the fades always run, multi-channel audio is down- and re-upmixed
through the mono average, and `normalize` may rescale — see the
counterexample.) -/
theorem denoise_intensity_zero_fades_only (proc : Nat → Nat → ℚ) (cosF : ℚ → ℚ)
    (samples : List ℚ) (info : WavInfo)
    (hch : info.channels = 1) (hsr : info.sample_rate = 48000) :
    denoiseWavSamples proc cosF samples info 0 false =
      .ok (applyFade cosF samples 48000 50) ∧
    ∀ j, Nat.min 2400 (samples.length / 2) ≤ j →
      j + Nat.min 2400 (samples.length / 2) < samples.length →
      (applyFade cosF samples 48000 50).getD j 0 = samples.getD j 0 := by
  constructor
  · rw [denoiseWavSamples, if_neg (by rw [hsr]; exact fun hne => hne rfl)]
    rw [hch, hsr, stereoToMono_one, denoiseMono_zero, monoToMultichannel_one]
    rfl
  · intro j hj1 hj2
    exact applyFade_getD_middle cosF samples 48000 50 j
      (by rw [show (48000 * 50 / 1000 : Nat) = 2400 from by norm_num]; exact hj1)
      (by rw [show (48000 * 50 / 1000 : Nat) = 2400 from by norm_num]; exact hj2)

/-- Witness for C1 (amended) on a 5-sample mono buffer: the pipeline output
is exactly the faded input, and the middle sample (outside both fades of
length 2) is unchanged. -/
theorem denoise_intensity_zero_fades_only_witness :
    denoiseWavSamples (fun _ _ => 0) (fun _ => 1) [1, 1, 1, 1, 1]
        ⟨1, 48000, 32, true, 44, 20⟩ 0 false =
      .ok (applyFade (fun _ => 1) [1, 1, 1, 1, 1] 48000 50) ∧
    (applyFade (fun _ => 1) [1, 1, 1, 1, 1] 48000 50).getD 2 0 = 1 := by
  have h := denoise_intensity_zero_fades_only (fun _ _ => 0) (fun _ => 1)
    [1, 1, 1, 1, 1] ⟨1, 48000, 32, true, 44, 20⟩ rfl rfl
  exact ⟨h.1, by rw [h.2 2 (by decide) (by decide)]; rfl⟩

/-- C2 counterexample: a "stereo" file whose sample count is not a multiple
of the channel count loses the trailing partial frame (`chunks_exact` drops
it), so output length 2 differs from input length 3. -/
theorem denoise_length_counterexample :
    (denoiseWavSamples (fun _ _ => 0) (fun _ => 1) [1, 2, 3]
        ⟨2, 48000, 32, true, 44, 12⟩ 0 false).map List.length =
      .ok 2 ∧ (2 : Nat) ≠ 3 := by
  refine ⟨?_, by decide⟩
  rw [denoiseWavSamples, if_neg (fun hne => hne rfl), exceptMap_ok]
  rw [applyFade_length, normalizeStep_length, monoToMultichannel_length,
    denoiseMono_length,
    show stereoToMono [1, 2, 3] (WavInfo.channels ⟨2, 48000, 32, true, 44, 12⟩) =
      stereoToMono [1, 2, 3] 2 from rfl,
    stereoToMono_length _ _ (by norm_num)]
  rfl

/-- C2 (amended): for every successful denoise call in which the channel
count is at least 1 and divides the sample count (true of every well-formed
multi-channel WAV payload), the output sample count equals the input sample
count; and every file written back by `write_wav_f32` with the input info
carries the input's channel count and sample rate, 32 bits per sample, IEEE
float.  (As stated, the claim fails when the channel count does not divide
the sample count: `chunks_exact` drops the trailing partial frame — see the
counterexample.) -/
theorem denoise_preserves_length_and_format (proc : Nat → Nat → ℚ) (cosF : ℚ → ℚ)
    (samples : List ℚ) (info : WavInfo) (intensity : ℚ) (normalize : Bool)
    (hch : 1 ≤ info.channels) (hdvd : info.channels ∣ samples.length)
    (hsr : info.sample_rate = 48000) (hc : info.channels < 65536) :
    (denoiseWavSamples proc cosF samples info intensity normalize).map List.length =
      .ok samples.length ∧
    ∀ encoded : List Nat,
      (readWavHeader (writeWavF32 encoded info)).map
          (fun i => (i.channels, i.sample_rate, i.bits_per_sample, i.is_float)) =
        .ok (info.channels, info.sample_rate, 32, true) := by
  constructor
  · rw [denoiseWavSamples, if_neg (by rw [hsr]; exact fun hne => hne rfl),
      exceptMap_ok, applyFade_length, normalizeStep_length,
      monoToMultichannel_length, denoiseMono_length,
      stereoToMono_length _ _ hch, Nat.div_mul_cancel hdvd]
  · intro encoded
    rw [readWavHeader_writeWavF32 encoded info hc (by rw [hsr]; norm_num)]
    rfl

/-- Witness for C2 (amended): a 4-sample stereo buffer with intensity 1 and
normalization on keeps its length, and the header write-back keeps the
format. -/
theorem denoise_preserves_length_and_format_witness :
    (denoiseWavSamples (fun _ _ => 0) (fun _ => 1) [1, 2, 3, 4]
        ⟨2, 48000, 32, true, 44, 16⟩ 1 true).map List.length = .ok 4 ∧
    (readWavHeader (writeWavF32 [7] ⟨2, 48000, 32, true, 44, 16⟩)).map
        (fun i => (i.channels, i.sample_rate, i.bits_per_sample, i.is_float)) =
      .ok (2, 48000, 32, true) := by
  have h := denoise_preserves_length_and_format (fun _ _ => 0) (fun _ => 1)
    [1, 2, 3, 4] ⟨2, 48000, 32, true, 44, 16⟩ 1 true
    (by decide) (by decide) rfl (by decide)
  exact ⟨h.1, h.2 [7]⟩

/-- C9: `peak_normalize` with target 0.891 leaves the buffer unchanged when
`max|s| < 0.001` or `|max|s| − 0.891| < 0.01`, and otherwise multiplies
every sample by `0.891 / max|s|`. -/
theorem peak_normalize_spec (samples : List ℚ) :
    ((maxAbs samples < 1 / 1000 ∨ |maxAbs samples - 891 / 1000| < 1 / 100) →
      peakNormalize samples (891 / 1000) = samples) ∧
    (¬(maxAbs samples < 1 / 1000 ∨ |maxAbs samples - 891 / 1000| < 1 / 100) →
      peakNormalize samples (891 / 1000) =
        samples.map fun s => s * (891 / 1000 / maxAbs samples)) := by
  constructor
  · intro h; rw [peakNormalize, if_pos h]
  · intro h; rw [peakNormalize, if_neg h]

/-- Witness for C9: a half-amplitude sample is scaled up to the target. -/
theorem peak_normalize_spec_witness :
    peakNormalize [(1 : ℚ) / 2] (891 / 1000) = [(891 : ℚ) / 1000] := by
  have hmax : maxAbs [(1 : ℚ) / 2] = 1 / 2 := by
    rw [maxAbs, List.foldl_cons, List.foldl_nil, abs_of_pos (by norm_num),
      if_pos (by norm_num)]
  rw [(peak_normalize_spec [(1 : ℚ) / 2]).2 ?side]
  · rw [List.map_cons, List.map_nil, hmax]
    norm_num
  case side =>
    rw [hmax]
    intro h
    rcases h with h | h
    · norm_num at h
    · rw [show |(1 : ℚ) / 2 - 891 / 1000| = 391 / 1000 from by
        rw [abs_of_neg (by norm_num)]; norm_num] at h
      norm_num at h

/-- C10: every successful `denoise_wav` output with at least 2 samples has
its first and last samples exactly 0.0: the fade length
`min(2400, len/2)` is at least 1 and the fade gain at `t = 0` is exactly 0
(`cos 0 = 1`). -/
theorem denoise_output_fade_endpoints (proc : Nat → Nat → ℚ) (cosF : ℚ → ℚ)
    (samples : List ℚ) (info : WavInfo) (intensity : ℚ) (normalize : Bool)
    (out : List ℚ) (hcos : cosF 0 = 1)
    (hout : denoiseWavSamples proc cosF samples info intensity normalize = .ok out)
    (h2 : 2 ≤ out.length) :
    out.getD 0 0 = 0 ∧ out.getD (out.length - 1) 0 = 0 := by
  rw [denoiseWavSamples] at hout
  by_cases hsr : info.sample_rate ≠ 48000
  · rw [if_pos hsr] at hout
    exact absurd hout (by simp)
  · rw [if_neg hsr] at hout
    have hsr48 : info.sample_rate = 48000 := not_not.mp hsr
    injection hout with hX
    subst hX
    rw [applyFade_length] at h2
    rw [hsr48]
    constructor
    · exact (applyFade_first_last cosF _ 48000 50 hcos h2 (by norm_num)).1
    · rw [applyFade_length]
      exact (applyFade_first_last cosF _ 48000 50 hcos h2 (by norm_num)).2

/-- Witness for C10 at a concrete 4-sample mono denoise call. -/
theorem denoise_output_fade_endpoints_witness :
    (applyFade (fun _ => 1) ([1, 1, 1, 1] : List ℚ) 48000 50).getD 0 0 = 0 ∧
    (applyFade (fun _ => 1) ([1, 1, 1, 1] : List ℚ) 48000 50).getD
      ((applyFade (fun _ => 1) ([1, 1, 1, 1] : List ℚ) 48000 50).length - 1) 0 = 0 := by
  apply denoise_output_fade_endpoints (fun _ _ => 0) (fun _ => 1) [1, 1, 1, 1]
    ⟨1, 48000, 32, true, 44, 16⟩ 0 false _ rfl ?_ ?_
  · rw [denoiseWavSamples, if_neg (fun hne => hne rfl),
      show stereoToMono [1, 1, 1, 1]
        (WavInfo.channels ⟨1, 48000, 32, true, 44, 16⟩) =
        stereoToMono [1, 1, 1, 1] 1 from rfl, stereoToMono_one,
      denoiseMono_zero,
      show monoToMultichannel [1, 1, 1, 1]
        (WavInfo.channels ⟨1, 48000, 32, true, 44, 16⟩) =
        monoToMultichannel [1, 1, 1, 1] 1 from rfl, monoToMultichannel_one]
    rfl
  · rw [applyFade_length]
    norm_num

/-! ## Waveform sink (wav.rs `AudioWavWriter`, wasapi.rs `AudioFormat`) -/

/-- `AudioFormat` captured from the WASAPI device (wasapi.rs). -/
structure AudioFormat where
  sample_rate : Nat
  channels : Nat
  bits_per_sample : Nat
  is_float : Bool
deriving Repr, DecidableEq

/-- Every 4th element of a list starting at index 0 — the `i += 4` sampling
loop shared by `compute_rms` (wav.rs) and `has_voice_activity` (engine.rs). -/
def every4 : List ℚ → List ℚ
  | [] => []
  | a :: _ :: _ :: _ :: rest => a :: every4 rest
  | a :: _ => [a]

/-- `compute_rms`: mean of squares over every 4th sample, square root, cast,
then clamp to at most 1.  `sqrtF` abstracts `f64::sqrt` composed with the
`as f32` rounding. -/
def computeRms (sqrtF : ℚ → ℚ) (samples : List ℚ) : ℚ :=
  if samples = [] then 0
  else
    min (sqrtF (((every4 samples).map fun s => s * s).sum /
      ((every4 samples).length : ℚ))) 1

/-- The in-memory view of an `AudioWavWriter`: the file contents so far, the
session format, and the running `data_bytes_written` (`u64`). -/
structure AudioWavWriter where
  fileBytes : List Nat
  format : AudioFormat
  data_bytes_written : Nat
deriving Repr

/-- `AudioWavWriter::create`: write a placeholder header with data size 0. -/
def wavCreate (format : AudioFormat) : AudioWavWriter :=
  { fileBytes := mkWavHeader format.channels format.sample_rate 0,
    format := format, data_bytes_written := 0 }

/-- `write_silence`: append `frame_count * channels * 4` zero bytes and
account them (`usize`/`u64` arithmetic taken mod 2^64). -/
def writeSilence (w : AudioWavWriter) (frameCount : Nat) : AudioWavWriter :=
  { w with
    fileBytes := w.fileBytes ++
      List.replicate (frameCount * w.format.channels * 4 % 18446744073709551616) 0,
    data_bytes_written :=
      (w.data_bytes_written + frameCount * w.format.channels * 4 % 18446744073709551616) %
        18446744073709551616 }

/-- The f32 samples persisted by one `write_raw` call: the source read back
as-is on the float and fallback branches, or divided by 32768 on the i16
branch (`s as f32 / 32768.0` is exact for every i16, hence the plain
division). -/
def writtenSamples (w : AudioWavWriter) (src : List ℚ) (frameCount : Nat) : List ℚ :=
  if w.format.is_float ∧ w.format.bits_per_sample = 32 then
    src.take (frameCount * w.format.channels % 18446744073709551616)
  else if ¬w.format.is_float ∧ w.format.bits_per_sample = 16 then
    (src.take (frameCount * w.format.channels % 18446744073709551616)).map
      fun s => s / 32768
  else
    src.take (frameCount * w.format.channels % 18446744073709551616)

/-- `write_raw`: append the bytes of the converted samples, account
`sample_count * 4` bytes, and return the RMS of the written audio.  `src` is
the sample-value view of the memory behind `ptr`; `f32ToBytes` abstracts
`f32::to_le_bytes` on a sample value (4 bytes for every real f32). -/
def writeRaw (f32ToBytes : ℚ → List Nat) (sqrtF : ℚ → ℚ) (w : AudioWavWriter)
    (src : List ℚ) (frameCount : Nat) : AudioWavWriter × ℚ :=
  ({ w with
     fileBytes := w.fileBytes ++ (writtenSamples w src frameCount).flatMap f32ToBytes,
     data_bytes_written :=
       (w.data_bytes_written +
         frameCount * w.format.channels % 18446744073709551616 * 4 %
           18446744073709551616) % 18446744073709551616 },
   computeRms sqrtF (writtenSamples w src frameCount))

/-- `finalize`: flush, seek to 0, and rewrite the header with the final data
size clamped to `u32::MAX`. -/
def wavFinalize (w : AudioWavWriter) : List Nat :=
  mkWavHeader w.format.channels w.format.sample_rate
    (Nat.min w.data_bytes_written 4294967295) ++ w.fileBytes.drop 44

/-- One call against the sink: `write_silence(frames)` or
`write_raw(ptr, frames)` with `src` the samples behind the pointer. -/
inductive SinkOp where
  | silence (frameCount : Nat)
  | raw (src : List ℚ) (frameCount : Nat)

/-- Run a sequence of sink calls (returned RMS values discarded). -/
def runOps (f32ToBytes : ℚ → List Nat) (sqrtF : ℚ → ℚ) :
    AudioWavWriter → List SinkOp → AudioWavWriter
  | w, [] => w
  | w, .silence fc :: ops => runOps f32ToBytes sqrtF (writeSilence w fc) ops
  | w, .raw src fc :: ops =>
      runOps f32ToBytes sqrtF (writeRaw f32ToBytes sqrtF w src fc).1 ops

/-- Total frames passed to the sink. -/
def totalFrames : List SinkOp → Nat
  | [] => 0
  | .silence fc :: ops => fc + totalFrames ops
  | .raw _ fc :: ops => fc + totalFrames ops

/-- `write_raw`'s unsafe contract: every raw call's source holds at least
`frame_count * channels` samples. -/
def validOps (ch : Nat) : List SinkOp → Prop
  | [] => True
  | .silence _ :: ops => validOps ch ops
  | .raw src fc :: ops => fc * ch ≤ src.length ∧ validOps ch ops

/-- Data bytes the sink appends for a sequence of calls, without wrap:
`frames * channels * 4` per call. -/
def bytesOf (ch : Nat) : List SinkOp → Nat
  | [] => 0
  | .silence fc :: ops => fc * ch * 4 + bytesOf ch ops
  | .raw _ fc :: ops => fc * ch * 4 + bytesOf ch ops

theorem length_flatMap_const4 (f : ℚ → List Nat) (hf : ∀ v, (f v).length = 4) :
    ∀ l : List ℚ, (l.flatMap f).length = 4 * l.length := by
  intro l
  induction l with
  | nil => simp
  | cons s rest ih =>
    simp only [List.flatMap_cons, List.length_append, hf, ih, List.length_cons]
    ring

theorem writtenSamples_length (w : AudioWavWriter) (src : List ℚ) (fc : Nat)
    (hsrc : fc * w.format.channels ≤ src.length)
    (hsc : fc * w.format.channels < 18446744073709551616) :
    (writtenSamples w src fc).length = fc * w.format.channels := by
  have hmod : fc * w.format.channels % 18446744073709551616 =
      fc * w.format.channels := Nat.mod_eq_of_lt hsc
  rw [writtenSamples]
  by_cases h1 : w.format.is_float ∧ w.format.bits_per_sample = 32
  · rw [if_pos h1, List.length_take, hmod]
    omega
  · rw [if_neg h1]
    by_cases h2 : ¬w.format.is_float ∧ w.format.bits_per_sample = 16
    · rw [if_pos h2, List.length_map, List.length_take, hmod]
      omega
    · rw [if_neg h2, List.length_take, hmod]
      omega

theorem runOps_spec (f32b : ℚ → List Nat) (sqrtF : ℚ → ℚ)
    (hb : ∀ v, (f32b v).length = 4) :
    ∀ (ops : List SinkOp) (w : AudioWavWriter),
      validOps w.format.channels ops →
      w.data_bytes_written + bytesOf w.format.channels ops < 18446744073709551616 →
      (runOps f32b sqrtF w ops).format = w.format ∧
      (runOps f32b sqrtF w ops).data_bytes_written =
        w.data_bytes_written + bytesOf w.format.channels ops ∧
      (runOps f32b sqrtF w ops).fileBytes.length =
        w.fileBytes.length + bytesOf w.format.channels ops := by
  intro ops
  induction ops with
  | nil =>
    intro w _ _
    refine ⟨rfl, by rw [bytesOf, runOps]; omega, by rw [bytesOf, runOps]; omega⟩
  | cons op ops ih =>
    intro w hvalid hbound
    cases op with
    | silence fc =>
      rw [bytesOf] at hbound
      have hk : fc * w.format.channels * 4 % 18446744073709551616 =
          fc * w.format.channels * 4 := Nat.mod_eq_of_lt (by omega)
      have hw : (writeSilence w fc).format = w.format := rfl
      have ih2 := ih (writeSilence w fc)
        (by rw [hw]; exact hvalid)
        (by rw [hw, writeSilence]; simp only [hk]; rw [Nat.mod_eq_of_lt (by omega)]; omega)
      rw [runOps]
      refine ⟨by rw [ih2.1, hw], ?_, ?_⟩
      · rw [ih2.2.1, hw, writeSilence]
        simp only [hk]
        rw [Nat.mod_eq_of_lt (by omega), bytesOf]
        omega
      · rw [ih2.2.2, hw, writeSilence]
        simp only [hk]
        rw [List.length_append, List.length_replicate, bytesOf]
        omega
    | raw src fc =>
      rw [bytesOf] at hbound
      rw [validOps] at hvalid
      have hsc : fc * w.format.channels < 18446744073709551616 := by omega
      have hmod : fc * w.format.channels % 18446744073709551616 =
          fc * w.format.channels := Nat.mod_eq_of_lt hsc
      have hk : fc * w.format.channels * 4 % 18446744073709551616 =
          fc * w.format.channels * 4 := Nat.mod_eq_of_lt (by omega)
      have hw : (writeRaw f32b sqrtF w src fc).1.format = w.format := rfl
      have ih2 := ih (writeRaw f32b sqrtF w src fc).1
        (by rw [hw]; exact hvalid.2)
        (by
          rw [hw, writeRaw]
          simp only [hmod, hk]
          rw [Nat.mod_eq_of_lt (by omega)]
          omega)
      rw [runOps]
      refine ⟨by rw [ih2.1, hw], ?_, ?_⟩
      · rw [ih2.2.1, hw, writeRaw]
        simp only [hmod, hk]
        rw [Nat.mod_eq_of_lt (by omega), bytesOf]
        omega
      · rw [ih2.2.2, hw, writeRaw]
        simp only [List.length_append,
          length_flatMap_const4 f32b hb,
          writtenSamples_length w src fc hvalid.1 hsc, bytesOf]
        omega

theorem bytesOf_eq_totalFrames (ch : Nat) :
    ∀ ops : List SinkOp, bytesOf ch ops = 4 * ch * totalFrames ops := by
  intro ops
  induction ops with
  | nil => rw [bytesOf, totalFrames]; ring
  | cons op ops ih =>
    cases op with
    | silence fc => rw [bytesOf, totalFrames, ih]; ring
    | raw src fc => rw [bytesOf, totalFrames, ih]; ring

/-- `u16::from_le_bytes` of the two bytes at `off` in a file. -/
def readU16At (bs : List Nat) (off : Nat) : Nat :=
  leToU16 (bs.getD off 0) (bs.getD (off + 1) 0)

/-- `u32::from_le_bytes` of the four bytes at `off` in a file. -/
def readU32At (bs : List Nat) (off : Nat) : Nat :=
  leToU32 (bs.getD off 0) (bs.getD (off + 1) 0) (bs.getD (off + 2) 0)
    (bs.getD (off + 3) 0)

/-- The header fields a WAV consumer reads back from a file that starts with
`mkWavHeader`: format tag 3 (IEEE float), 32 bits per sample, block-align
`channels * 4`, byte-rate `sample_rate * block_align`, and the declared data
size. -/
theorem mkWavHeader_fields (c r d : Nat) (rest : List Nat)
    (hba : c * 4 < 65536) (hbr : r * (c * 4) < 4294967296) (hd : d < 4294967296) :
    readU16At (mkWavHeader c r d ++ rest) 20 = 3 ∧
    readU16At (mkWavHeader c r d ++ rest) 34 = 32 ∧
    readU16At (mkWavHeader c r d ++ rest) 32 = c * 4 ∧
    readU32At (mkWavHeader c r d ++ rest) 28 = r * (c * 4) ∧
    readU32At (mkWavHeader c r d ++ rest) 40 = d := by
  have hget : ∀ k, k < 44 →
      (mkWavHeader c r d ++ rest).getD k 0 = (mkWavHeader c r d).getD k 0 := by
    intro k hk
    exact List.getD_append _ _ _ _ (by rw [mkWavHeader_length]; omega)
  have hba2 : c * 4 % 65536 = c * 4 := Nat.mod_eq_of_lt hba
  have hbr2 : r * (c * 4 % 65536) % 4294967296 = r * (c * 4) := by
    rw [hba2]
    exact Nat.mod_eq_of_lt hbr
  refine ⟨?_, ?_, ?_, ?_, ?_⟩
  · rw [readU16At, hget 20 (by omega), hget 21 (by omega), mkWavHeader_eq_flat]
    rfl
  · rw [readU16At, hget 34 (by omega), hget 35 (by omega), mkWavHeader_eq_flat]
    rfl
  · rw [readU16At, hget 32 (by omega), hget 33 (by omega), mkWavHeader_eq_flat,
      show ([82, 73, 70, 70, (36 + d) % 4294967296 % 256,
        (36 + d) % 4294967296 / 256 % 256, (36 + d) % 4294967296 / 65536 % 256,
        (36 + d) % 4294967296 / 16777216 % 256, 87, 65, 86, 69, 102, 109, 116,
        32, 16, 0, 0, 0, 3, 0, c % 256, c / 256 % 256, r % 256, r / 256 % 256,
        r / 65536 % 256, r / 16777216 % 256,
        r * (c * 4 % 65536) % 4294967296 % 256,
        r * (c * 4 % 65536) % 4294967296 / 256 % 256,
        r * (c * 4 % 65536) % 4294967296 / 65536 % 256,
        r * (c * 4 % 65536) % 4294967296 / 16777216 % 256, c * 4 % 65536 % 256,
        c * 4 % 65536 / 256 % 256, 32, 0, 100, 97, 116, 97, d % 256,
        d / 256 % 256, d / 65536 % 256, d / 16777216 % 256] : List Nat).getD 32 0 =
        c * 4 % 65536 % 256 from rfl,
      show ([82, 73, 70, 70, (36 + d) % 4294967296 % 256,
        (36 + d) % 4294967296 / 256 % 256, (36 + d) % 4294967296 / 65536 % 256,
        (36 + d) % 4294967296 / 16777216 % 256, 87, 65, 86, 69, 102, 109, 116,
        32, 16, 0, 0, 0, 3, 0, c % 256, c / 256 % 256, r % 256, r / 256 % 256,
        r / 65536 % 256, r / 16777216 % 256,
        r * (c * 4 % 65536) % 4294967296 % 256,
        r * (c * 4 % 65536) % 4294967296 / 256 % 256,
        r * (c * 4 % 65536) % 4294967296 / 65536 % 256,
        r * (c * 4 % 65536) % 4294967296 / 16777216 % 256, c * 4 % 65536 % 256,
        c * 4 % 65536 / 256 % 256, 32, 0, 100, 97, 116, 97, d % 256,
        d / 256 % 256, d / 65536 % 256, d / 16777216 % 256] : List Nat).getD 33 0 =
        c * 4 % 65536 / 256 % 256 from rfl,
      hba2, leToU16]
    omega
  · rw [readU32At, hget 28 (by omega), hget 29 (by omega), hget 30 (by omega),
      hget 31 (by omega), mkWavHeader_eq_flat]
    show leToU32 (r * (c * 4 % 65536) % 4294967296 % 256)
      (r * (c * 4 % 65536) % 4294967296 / 256 % 256)
      (r * (c * 4 % 65536) % 4294967296 / 65536 % 256)
      (r * (c * 4 % 65536) % 4294967296 / 16777216 % 256) = r * (c * 4)
    rw [leToU32_u32ToLe _ (Nat.mod_lt _ (by norm_num)), hbr2]
  · rw [readU32At, hget 40 (by omega), hget 41 (by omega), hget 42 (by omega),
      hget 43 (by omega), mkWavHeader_eq_flat]
    show leToU32 (d % 256) (d / 256 % 256) (d / 65536 % 256)
      (d / 16777216 % 256) = d
    exact leToU32_u32ToLe d hd

/-- C4: for every sequence of `write_silence` / `write_raw` calls on valid
sources followed by `finalize`, with the total below the 2^32−1 clamp: the
total data bytes appended and the data-chunk size patched into the header
equal `4 × channels × total frames`, the file size is 44 plus that size, and
the header declares IEEE-float format 3, 32 bits per sample,
block-align = channels × 4 and byte-rate = sample_rate × block-align. -/
theorem sink_file_invariants (f32b : ℚ → List Nat) (sqrtF : ℚ → ℚ)
    (fmt : AudioFormat) (ops : List SinkOp)
    (hb : ∀ v, (f32b v).length = 4)
    (hvalid : validOps fmt.channels ops)
    (htot : 4 * fmt.channels * totalFrames ops < 4294967296)
    (hba : fmt.channels * 4 < 65536)
    (hbr : fmt.sample_rate * (fmt.channels * 4) < 4294967296) :
    (runOps f32b sqrtF (wavCreate fmt) ops).data_bytes_written =
      4 * fmt.channels * totalFrames ops ∧
    (wavFinalize (runOps f32b sqrtF (wavCreate fmt) ops)).length =
      44 + 4 * fmt.channels * totalFrames ops ∧
    readU32At (wavFinalize (runOps f32b sqrtF (wavCreate fmt) ops)) 40 =
      4 * fmt.channels * totalFrames ops ∧
    readU16At (wavFinalize (runOps f32b sqrtF (wavCreate fmt) ops)) 20 = 3 ∧
    readU16At (wavFinalize (runOps f32b sqrtF (wavCreate fmt) ops)) 34 = 32 ∧
    readU16At (wavFinalize (runOps f32b sqrtF (wavCreate fmt) ops)) 32 =
      fmt.channels * 4 ∧
    readU32At (wavFinalize (runOps f32b sqrtF (wavCreate fmt) ops)) 28 =
      fmt.sample_rate * (fmt.channels * 4) := by
  have hcfmt : (wavCreate fmt).format = fmt := rfl
  obtain ⟨hfmt, hdbw, hlen⟩ := runOps_spec f32b sqrtF hb ops (wavCreate fmt)
    (by rw [hcfmt]; exact hvalid)
    (by
      rw [hcfmt, bytesOf_eq_totalFrames,
        show (wavCreate fmt).data_bytes_written = 0 from rfl]
      omega)
  rw [hcfmt] at hfmt hdbw hlen
  rw [bytesOf_eq_totalFrames, show (wavCreate fmt).data_bytes_written = 0 from rfl,
    Nat.zero_add] at hdbw
  rw [bytesOf_eq_totalFrames,
    show (wavCreate fmt).fileBytes.length = 44 from rfl] at hlen
  refine ⟨hdbw, ?_, ?_, ?_, ?_, ?_, ?_⟩ <;>
    rw [wavFinalize, hfmt, hdbw,
      show Nat.min (4 * fmt.channels * totalFrames ops) 4294967295 =
        4 * fmt.channels * totalFrames ops from by rw [natMin_eq_min]; omega]
  · rw [List.length_append, mkWavHeader_length, List.length_drop, hlen]
    omega
  · exact (mkWavHeader_fields _ _ _ _ hba hbr (by omega)).2.2.2.2
  · exact (mkWavHeader_fields _ _ _ _ hba hbr (by omega)).1
  · exact (mkWavHeader_fields _ _ _ _ hba hbr (by omega)).2.1
  · exact (mkWavHeader_fields _ _ _ _ hba hbr (by omega)).2.2.1
  · exact (mkWavHeader_fields _ _ _ _ hba hbr (by omega)).2.2.2.1

/-- Witness for C4: one silence frame and one 2-frame stereo raw write give
24 data bytes and a finalized 68-byte file with the declared fields. -/
theorem sink_file_invariants_witness :
    (runOps (fun _ => [0, 0, 0, 0]) (fun x => x)
        (wavCreate ⟨48000, 2, 32, true⟩)
        [.silence 1, .raw [1, 2, 3, 4] 2]).data_bytes_written = 24 ∧
    (wavFinalize (runOps (fun _ => [0, 0, 0, 0]) (fun x => x)
        (wavCreate ⟨48000, 2, 32, true⟩)
        [.silence 1, .raw [1, 2, 3, 4] 2])).length = 44 + 24 ∧
    readU32At (wavFinalize (runOps (fun _ => [0, 0, 0, 0]) (fun x => x)
        (wavCreate ⟨48000, 2, 32, true⟩)
        [.silence 1, .raw [1, 2, 3, 4] 2])) 40 = 24 ∧
    readU16At (wavFinalize (runOps (fun _ => [0, 0, 0, 0]) (fun x => x)
        (wavCreate ⟨48000, 2, 32, true⟩)
        [.silence 1, .raw [1, 2, 3, 4] 2])) 20 = 3 ∧
    readU16At (wavFinalize (runOps (fun _ => [0, 0, 0, 0]) (fun x => x)
        (wavCreate ⟨48000, 2, 32, true⟩)
        [.silence 1, .raw [1, 2, 3, 4] 2])) 34 = 32 ∧
    readU16At (wavFinalize (runOps (fun _ => [0, 0, 0, 0]) (fun x => x)
        (wavCreate ⟨48000, 2, 32, true⟩)
        [.silence 1, .raw [1, 2, 3, 4] 2])) 32 = 8 ∧
    readU32At (wavFinalize (runOps (fun _ => [0, 0, 0, 0]) (fun x => x)
        (wavCreate ⟨48000, 2, 32, true⟩)
        [.silence 1, .raw [1, 2, 3, 4] 2])) 28 = 384000 :=
  sink_file_invariants (fun _ => [0, 0, 0, 0]) (fun x => x) ⟨48000, 2, 32, true⟩
    [.silence 1, .raw [1, 2, 3, 4] 2] (fun _ => rfl)
    ⟨by norm_num, trivial⟩ (by norm_num [totalFrames]) (by norm_num) (by norm_num)

/-! ### C8: RMS level returned by `write_raw` -/

theorem every4_ne_nil (a : ℚ) (t : List ℚ) : every4 (a :: t) ≠ [] := by
  match t with
  | [] => simp [every4]
  | [b] => simp [every4]
  | [b, c] => simp [every4]
  | b :: c :: d :: rest => simp [every4]

/-- `compute_rms` only looks at every 4th sample: lists with the same
4-strided subsequence get the same RMS. -/
theorem computeRms_every4 (sqrtF : ℚ → ℚ) (s₁ s₂ : List ℚ)
    (h4 : every4 s₁ = every4 s₂) :
    computeRms sqrtF s₁ = computeRms sqrtF s₂ := by
  by_cases h2 : s₂ = []
  · subst h2
    have h1 : s₁ = [] := by
      cases s₁ with
      | nil => rfl
      | cons a t => exact absurd h4 (every4_ne_nil a t)
    subst h1
    rfl
  · have h1 : s₁ ≠ [] := by
      intro h
      subst h
      cases s₂ with
      | nil => exact h2 rfl
      | cons a t => exact every4_ne_nil a t h4.symm
    rw [computeRms, computeRms, if_neg h1, if_neg h2, h4]

theorem computeRms_bounds (sqrtF : ℚ → ℚ)
    (hsqrt : ∀ x : ℚ, 0 ≤ x → 0 ≤ sqrtF x) (s : List ℚ) :
    0 ≤ computeRms sqrtF s ∧ computeRms sqrtF s ≤ 1 := by
  rw [computeRms]
  by_cases h : s = []
  · rw [if_pos h]
    norm_num
  · rw [if_neg h]
    have hsum : 0 ≤ ((every4 s).map fun x => x * x).sum := by
      apply List.sum_nonneg
      intro x hx
      obtain ⟨y, _, rfl⟩ := List.mem_map.mp hx
      exact mul_self_nonneg y
    have harg : 0 ≤ ((every4 s).map fun x => x * x).sum /
        ((every4 s).length : ℚ) := div_nonneg hsum (Nat.cast_nonneg _)
    exact ⟨le_min (hsqrt _ harg) zero_le_one, min_le_right _ _⟩

/-- C8: the RMS level returned by `write_raw` is `compute_rms` of the written
samples, lies in [0, 1] (the square root of a nonnegative mean of squares,
clamped at 1), and is computed from every 4th sample only: any sample list
with the same 4-strided subsequence yields the same value. -/
theorem write_raw_rms (f32b : ℚ → List Nat) (sqrtF : ℚ → ℚ)
    (w : AudioWavWriter) (src : List ℚ) (fc : Nat)
    (hsqrt : ∀ x : ℚ, 0 ≤ x → 0 ≤ sqrtF x) :
    (writeRaw f32b sqrtF w src fc).2 =
      computeRms sqrtF (writtenSamples w src fc) ∧
    0 ≤ (writeRaw f32b sqrtF w src fc).2 ∧
    (writeRaw f32b sqrtF w src fc).2 ≤ 1 ∧
    ∀ other : List ℚ, every4 (writtenSamples w src fc) = every4 other →
      (writeRaw f32b sqrtF w src fc).2 = computeRms sqrtF other := by
  refine ⟨rfl, (computeRms_bounds sqrtF hsqrt _).1,
    (computeRms_bounds sqrtF hsqrt _).2, ?_⟩
  intro other h4
  exact computeRms_every4 sqrtF _ other h4

/-- Witness for C8 at a concrete mono float write of 2 frames; the final
conjunct is instantiated at `[1, 5]`, which agrees with the written samples
on the sampled indices only. -/
theorem write_raw_rms_witness :
    (writeRaw (fun _ => [0, 0, 0, 0]) (fun x => x)
        (wavCreate ⟨48000, 1, 32, true⟩) [1, 2] 2).2 =
      computeRms (fun x => x)
        (writtenSamples (wavCreate ⟨48000, 1, 32, true⟩) [1, 2] 2) ∧
    0 ≤ (writeRaw (fun _ => [0, 0, 0, 0]) (fun x => x)
        (wavCreate ⟨48000, 1, 32, true⟩) [1, 2] 2).2 ∧
    (writeRaw (fun _ => [0, 0, 0, 0]) (fun x => x)
        (wavCreate ⟨48000, 1, 32, true⟩) [1, 2] 2).2 ≤ 1 ∧
    (writeRaw (fun _ => [0, 0, 0, 0]) (fun x => x)
        (wavCreate ⟨48000, 1, 32, true⟩) [1, 2] 2).2 =
      computeRms (fun x => x) [1, 5] := by
  have h := write_raw_rms (fun _ => [0, 0, 0, 0]) (fun x => x)
    (wavCreate ⟨48000, 1, 32, true⟩) [1, 2] 2 (fun x hx => hx)
  exact ⟨h.1, h.2.1, h.2.2.1, h.2.2.2 [1, 5] rfl⟩

/-! ## ASR engine (engine.rs): hallucination filter

Rust strings are modelled as their character lists; `str::len` is the UTF-8
byte count, `String::to_lowercase` (full Unicode case mapping) is an
explicit function parameter. -/

/-- `str::len`: UTF-8 byte length of a character list. -/
def byteLen (l : List Char) : Nat := (l.map Char.utf8Size).sum

/-- Rust `char::is_whitespace`: the Unicode `White_Space` property
(U+0009-U+000D, U+0020, U+0085, U+00A0, U+1680, U+2000-U+200A, U+2028,
U+2029, U+202F, U+205F, U+3000). -/
def isRustWhitespace (c : Char) : Bool :=
  decide (9 ≤ c.toNat ∧ c.toNat ≤ 13) || decide (c.toNat = 32) ||
  decide (c.toNat = 133) || decide (c.toNat = 160) ||
  decide (c.toNat = 5760) ||
  decide (8192 ≤ c.toNat ∧ c.toNat ≤ 8202) ||
  decide (c.toNat = 8232) || decide (c.toNat = 8233) ||
  decide (c.toNat = 8239) || decide (c.toNat = 8287) ||
  decide (c.toNat = 12288)

/-- `str::split_whitespace` as an accumulator recursion: split on runs of
Unicode whitespace, no empty tokens. -/
def splitWsGo : List Char → List Char → List (List Char)
  | cur, [] => if cur = [] then [] else [cur.reverse]
  | cur, c :: rest =>
    if isRustWhitespace c then
      if cur = [] then splitWsGo [] rest else cur.reverse :: splitWsGo [] rest
    else splitWsGo (c :: cur) rest

def splitWhitespace (l : List Char) : List (List Char) := splitWsGo [] l

/-- The word list of `is_hallucination`: whitespace tokens of the lowercased
text whose byte length exceeds 1 (`.filter(|w| w.len() > 1)`). -/
def hallWords (lower : List Char → List Char) (text : List Char) : List (List Char) :=
  (splitWhitespace (lower text)).filter fun w => 1 < byteLen w

/-- `words.windows(3)` as triples. -/
def windows3 : List (List Char) → List (List Char × List Char × List Char)
  | a :: b :: c :: rest => (a, b, c) :: windows3 (b :: c :: rest)
  | _ => []

/-- `HashMap` lookup for the trigram counts (`*counts.get(t)` or 0). -/
def lookupTri (t : List Char × List Char × List Char) :
    List ((List Char × List Char × List Char) × Nat) → Nat
  | [] => 0
  | (k, v) :: m => if k = t then v else lookupTri t m

/-- Number of occurrences of a trigram in a window list. -/
def countTri (t : List Char × List Char × List Char) :
    List (List Char × List Char × List Char) → Nat
  | [] => 0
  | u :: rest => (if u = t then 1 else 0) + countTri t rest

theorem countTri_eq_zero_of_not_mem (t : List Char × List Char × List Char) :
    ∀ l : List (List Char × List Char × List Char), t ∉ l → countTri t l = 0 := by
  intro l
  induction l with
  | nil => intro _; rfl
  | cons u rest ih =>
    intro h
    rw [List.mem_cons, not_or] at h
    rw [countTri, if_neg (fun he => h.1 he.symm), ih h.2]

theorem countTri_le_one_of_nodup (t : List Char × List Char × List Char) :
    ∀ l : List (List Char × List Char × List Char), l.Nodup → countTri t l ≤ 1 := by
  intro l
  induction l with
  | nil => intro _; norm_num [countTri]
  | cons u rest ih =>
    intro hnd
    rw [countTri]
    by_cases hu : u = t
    · rw [if_pos hu, countTri_eq_zero_of_not_mem t rest
        (hu ▸ (List.nodup_cons.mp hnd).1)]
    · rw [if_neg hu]
      have := ih (List.nodup_cons.mp hnd).2
      omega

/-- The trigram-counting loop of `is_hallucination`: bump the count of each
window and return `true` as soon as one reaches 3. -/
def triLoop : List (List Char × List Char × List Char) →
    List ((List Char × List Char × List Char) × Nat) → Bool
  | [], _ => false
  | t :: rest, m =>
    if 3 ≤ lookupTri t m + 1 then true
    else triLoop rest ((t, lookupTri t m + 1) :: m)

/-- `is_hallucination`: pass anything under 20 bytes or under 4 words;
flag low unique-word ratio (`< 0.25`, exact rational division standing in
for the f64 quotient) or any trigram repeated 3 times. -/
def isHallucination (lower : List Char → List Char) (text : List Char) : Bool :=
  if byteLen text < 20 then false
  else if (hallWords lower text).length < 4 then false
  else if (((hallWords lower text).dedup.length : ℚ) /
      ((hallWords lower text).length : ℚ)) < 1 / 4 then true
  else triLoop (windows3 (hallWords lower text)) []

theorem triLoop_false
    (ts : List (List Char × List Char × List Char)) :
    ∀ m : List ((List Char × List Char × List Char) × Nat),
      (∀ t, lookupTri t m + countTri t ts ≤ 2) → triLoop ts m = false := by
  induction ts with
  | nil => intro m _; rw [triLoop]
  | cons t rest ih =>
    intro m h
    have hcount := h t
    rw [countTri, if_pos rfl] at hcount
    rw [triLoop, if_neg (by omega)]
    apply ih
    intro u
    have hu := h u
    rw [countTri] at hu
    by_cases heq : u = t
    · subst heq
      rw [lookupTri, if_pos rfl]
      rw [if_pos rfl] at hu
      omega
    · rw [lookupTri, if_neg (fun hh => heq hh.symm)]
      rw [if_neg (fun hh => heq hh.symm)] at hu
      omega

/-- C7 counterexample: "αα αα αα αα αα" has 14 characters (< 20) but 24
UTF-8 bytes, so the length gate does not fire; its 5 identical 2-character
words give a unique ratio 1/5 < 0.25 and the filter flags it as a
hallucination, refuting the claim as stated over characters. -/
theorem hallucination_filter_counterexample :
    isHallucination (fun c => c) ("αα αα αα αα αα".toList) = true ∧
    ("αα αα αα αα αα".toList).length = 14 ∧ 14 < 20 := by
  refine ⟨?_, by decide, by norm_num⟩
  rw [isHallucination]
  rw [if_neg (by decide)]
  rw [show hallWords (fun c => c) ("αα αα αα αα αα".toList) =
    [['α', 'α'], ['α', 'α'], ['α', 'α'], ['α', 'α'], ['α', 'α']] from by decide]
  rw [if_neg (by decide)]
  rw [if_pos ?ratio]
  case ratio =>
    rw [show ([['α', 'α'], ['α', 'α'], ['α', 'α'], ['α', 'α'],
      ['α', 'α']] : List (List Char)).dedup = [['α', 'α']] from by decide]
    norm_num

/-- C7 (amended): the filter returns "not a hallucination" for every input
shorter than 20 UTF-8 bytes (the source checks `text.len()`, bytes not
characters), and for every input whose computed word list — Unicode
whitespace tokens of the lowercased text longer than 1 byte — has at least
4 words, every trigram occurring at most twice, and a distinct-word ratio
of at least 0.25. -/
theorem hallucination_filter_spec (lower : List Char → List Char)
    (text : List Char)
    (h : byteLen text < 20 ∨
      (4 ≤ (hallWords lower text).length ∧
       (∀ t, countTri t (windows3 (hallWords lower text)) ≤ 2) ∧
       (1 : ℚ) / 4 ≤ ((hallWords lower text).dedup.length : ℚ) /
         ((hallWords lower text).length : ℚ))) :
    isHallucination lower text = false := by
  rcases h with h | ⟨h4, htri, hratio⟩
  · rw [isHallucination, if_pos h]
  · rw [isHallucination]
    by_cases hlen : byteLen text < 20
    · rw [if_pos hlen]
    · rw [if_neg hlen]
      rw [if_neg (by omega), if_neg (not_lt.mpr hratio)]
      apply triLoop_false
      intro t
      have h0 : lookupTri t [] = 0 := rfl
      have := htri t
      omega

/-- Witness for C7 (amended) at a short input and at a diverse 4-word input. -/
theorem hallucination_filter_spec_witness :
    isHallucination (fun c => c) ("hi there".toList) = false ∧
    isHallucination (fun c => c) ("alpha bravo charlie delta echo".toList) = false := by
  constructor
  · exact hallucination_filter_spec (fun c => c) _ (Or.inl (by decide))
  · refine hallucination_filter_spec (fun c => c) _ (Or.inr ⟨?_, ?_, ?_⟩)
    · decide
    · intro t
      have : windows3 (hallWords (fun c => c)
          ("alpha bravo charlie delta echo".toList)) =
          [(['a','l','p','h','a'], ['b','r','a','v','o'], ['c','h','a','r','l','i','e']),
           (['b','r','a','v','o'], ['c','h','a','r','l','i','e'], ['d','e','l','t','a']),
           (['c','h','a','r','l','i','e'], ['d','e','l','t','a'], ['e','c','h','o'])] := by
        decide
      rw [this]
      have hnd : ([(['a','l','p','h','a'], ['b','r','a','v','o'], ['c','h','a','r','l','i','e']),
           (['b','r','a','v','o'], ['c','h','a','r','l','i','e'], ['d','e','l','t','a']),
           (['c','h','a','r','l','i','e'], ['d','e','l','t','a'], ['e','c','h','o'])] :
           List (List Char × List Char × List Char)).Nodup := by decide
      exact le_trans (countTri_le_one_of_nodup t _ hnd) (by norm_num)
    · rw [show (hallWords (fun c => c)
          ("alpha bravo charlie delta echo".toList)).dedup.length = 5 from by decide,
        show (hallWords (fun c => c)
          ("alpha bravo charlie delta echo".toList)).length = 5 from by decide]
      norm_num

/-! ### ASR decoder KV cache (`transcription/engine.rs`, `MoonshineEngine::transcribe`) -/

/-- One named KV-cache entry (`KvEntry`): name, tensor shape, flat data. -/
structure KvEntry where
  name : List Char
  shape : List Int
  data : List ℚ
  deriving Repr, DecidableEq

/-- Decimal rendering of a `usize` as by Rust's `format!`, accumulator form. -/
def natCharsGo : Nat → Nat → List Char → List Char
  | 0, _, acc => acc
  | fuel + 1, n, acc =>
    if n < 10 then Nat.digitChar n :: acc
    else natCharsGo fuel (n / 10) (Nat.digitChar (n % 10) :: acc)

def natChars (n : Nat) : List Char := natCharsGo (n + 1) n []

/-- The cache-entry name `format!("past_key_values.{layer}.{module}.{kv}")`. -/
def kvName (layer : Nat) (module kv : String) : List Char :=
  "past_key_values.".toList ++ natChars layer ++
    '.' :: (module.toList ++ '.' :: kv.toList)

/-- `dim_kv = hidden_size / decoder_num_key_value_heads` (`MoonshineConfig::dim_kv`). -/
def dimKv (hiddenSize numHeads : Nat) : Nat := hiddenSize / numHeads

/-- The four entries pushed for one layer of the KV-cache init loop. -/
def blockKv (numHeads dk layer : Nat) : List KvEntry :=
  ["decoder", "encoder"].flatMap fun module =>
    ["key", "value"].map fun kv =>
      { name := kvName layer module kv
        shape := [1, (numHeads : Int), 1, (dk : Int)]
        data := List.replicate (numHeads * dk) 0 }

/-- The KV cache as initialized before the decode loop (engine.rs lines 163-174). -/
def initKvCache (numLayers numHeads dk : Nat) : List KvEntry :=
  (List.range numLayers).flatMap (blockKv numHeads dk)

/-- What one decoder-session run returns: logits (shape + data) at index 0, and
the present-KV outputs at indices 1.. (`decoder_outputs`). -/
structure DecoderOutputs where
  logitsShape : List Int
  logitsData : List ℚ
  kvOuts : List (List Int × List ℚ)
  deriving Repr

/-- Last-maximum argmax over an enumerated list: Rust `Iterator::max_by`, which
keeps the incumbent only when strictly greater, so ties go to the later index. -/
def argmaxLast (l : List ℚ) : Option (Nat × ℚ) :=
  l.enum.foldl
    (fun acc p => acc.elim (some p) fun q => if p.2 < q.2 then some q else some p)
    none

/-- Next-token selection from the logits tensor: `vocab_size` is the last shape
dim cast `as usize` (wrapping mod 2^64), `offset` a saturating subtraction, and
the argmax over the final row, defaulting to `eos` on an empty slice. -/
def nextToken (eos : Int) (logitsShape : List Int) (logitsData : List ℚ) : Int :=
  let vocabSize := ((logitsShape.getLast?.getD 1) % (2 ^ 64 : Int)).toNat
  let offset := logitsData.length - vocabSize
  (argmaxLast (logitsData.drop offset)).elim eos fun p => (p.1 : Int)

/-- Rust `str::contains(pat)`: does `pat` occur as a contiguous subsequence? -/
def containsSeq (pat : List Char) : List Char → Bool
  | [] => decide (pat = [])
  | c :: rest => List.isPrefixOf pat (c :: rest) || containsSeq pat rest

/-- The KV-cache update loop (engine.rs lines 230-243): entry `j` reads output
`j + 1`, guarded by `output_idx < decoder_outputs.len()`, and is replaced iff
`!use_cache || entry.name.contains("decoder")`. -/
def updateKv (useCache : Bool) (outs : List (List Int × List ℚ)) :
    Nat → List KvEntry → List KvEntry
  | _, [] => []
  | j, e :: rest =>
    (if j + 1 < outs.length + 1 then
       if !useCache || containsSeq "decoder".toList e.name then
         { e with shape := (outs.getD j ([], [])).1, data := (outs.getD j ([], [])).2 }
       else e
     else e) :: updateKv useCache outs (j + 1) rest

/-- Decode-loop state: generated tokens, KV cache, and whether `break` ran. -/
structure DecodeState where
  tokens : List Int
  kv : List KvEntry
  finished : Bool

/-- Body of one decoder-loop iteration after `use_cache` and the session run
are fixed: `break` on eos comes before the token push and the KV update. -/
def decodeStepRun (eos : Int) (useCache : Bool) (outs : DecoderOutputs)
    (st : DecodeState) : DecodeState :=
  if nextToken eos outs.logitsShape outs.logitsData = eos then
    { st with finished := true }
  else
    { tokens := st.tokens ++ [nextToken eos outs.logitsShape outs.logitsData]
      kv := updateKv useCache outs.kvOuts 0 st.kv
      finished := false }

/-- One iteration of `for step in 0..max_len`: once `break` has run the state
is frozen; otherwise `use_cache = step > 0` and the session is consulted. -/
def decodeStep (eos : Int)
    (oracle : Nat → Bool → Int → List KvEntry → DecoderOutputs)
    (st : DecodeState) (step : Nat) : DecodeState :=
  if st.finished then st
  else decodeStepRun eos (decide (0 < step))
    (oracle step (decide (0 < step)) (st.tokens.getLast?.getD 0) st.kv) st

/-- The full decode loop: fold `decodeStep` over `0..max_len`. -/
def runDecode (eos : Int)
    (oracle : Nat → Bool → Int → List KvEntry → DecoderOutputs)
    (maxLen : Nat) (st : DecodeState) : DecodeState :=
  (List.range maxLen).foldl (decodeStep eos oracle) st

theorem blockKv_length (numHeads dk layer : Nat) :
    (blockKv numHeads dk layer).length = 4 := rfl

theorem initKvCache_length (numLayers numHeads dk : Nat) :
    (initKvCache numLayers numHeads dk).length = 2 * 2 * numLayers := by
  induction numLayers with
  | zero => rfl
  | succ n ih =>
    rw [initKvCache, List.range_succ, List.flatMap_append] at *
    rw [List.length_append, ih]
    simp only [List.flatMap_cons, List.flatMap_nil, List.append_nil,
      List.length_append, blockKv_length]
    omega

theorem initKvCache_mem (numLayers numHeads dk : Nat) (e : KvEntry)
    (he : e ∈ initKvCache numLayers numHeads dk) :
    e.shape = [1, (numHeads : Int), 1, (dk : Int)] ∧
      e.data = List.replicate (numHeads * dk) 0 := by
  rw [initKvCache] at he
  rw [List.mem_flatMap] at he
  obtain ⟨layer, _, he⟩ := he
  rw [blockKv, List.mem_flatMap] at he
  obtain ⟨m, hm, he⟩ := he
  rw [List.mem_map] at he
  obtain ⟨kv, _, he⟩ := he
  subst he
  exact ⟨rfl, rfl⟩

theorem initKvCache_get4 (numHeads dk : Nat) :
    ∀ numLayers layer i, layer < numLayers → i < 4 →
      (initKvCache numLayers numHeads dk)[4 * layer + i]? =
        (blockKv numHeads dk layer)[i]? := by
  intro numLayers
  induction numLayers with
  | zero => intro layer i h; omega
  | succ n ih =>
    intro layer i hl hi
    rw [initKvCache, List.range_succ, List.flatMap_append, List.flatMap_cons,
      List.flatMap_nil, List.append_nil]
    have hlen : ((List.range n).flatMap (blockKv numHeads dk)).length = 2 * 2 * n := by
      rw [show ((List.range n).flatMap (blockKv numHeads dk)) = initKvCache n numHeads dk from rfl,
        initKvCache_length]
    by_cases hln : layer < n
    · rw [List.getElem?_append_left (by rw [hlen]; omega)]
      exact ih layer i hln hi
    · have : layer = n := by omega
      subst this
      rw [List.getElem?_append_right (by rw [hlen]; omega), hlen,
        show 4 * layer + i - 2 * 2 * layer = i from by omega]

theorem digitChar_ne_d (m : Nat) (hm : m < 10) : Nat.digitChar m ≠ 'd' := by
  have : ∀ k, k < 10 → Nat.digitChar k ≠ 'd' := by decide
  exact this m hm

theorem natCharsGo_no_d :
    ∀ fuel n acc, 'd' ∉ acc → 'd' ∉ natCharsGo fuel n acc := by
  intro fuel
  induction fuel with
  | zero => intro n acc h; exact h
  | succ f ih =>
    intro n acc h
    rw [natCharsGo]
    by_cases hn : n < 10
    · rw [if_pos hn]
      intro hmem
      rcases List.mem_cons.mp hmem with he | hm
      · exact digitChar_ne_d n hn he.symm
      · exact h hm
    · rw [if_neg hn]
      apply ih
      intro hmem
      rcases List.mem_cons.mp hmem with he | hm
      · exact digitChar_ne_d (n % 10) (Nat.mod_lt _ (by norm_num)) he.symm
      · exact h hm

theorem natChars_no_d (n : Nat) : 'd' ∉ natChars n :=
  natCharsGo_no_d (n + 1) n [] (List.not_mem_nil 'd')

theorem isPrefixOf_append_self (l t : List Char) :
    List.isPrefixOf l (l ++ t) = true := by
  induction l with
  | nil => exact List.isPrefixOf_nil_left
  | cons c cs ih =>
    rw [List.cons_append, List.isPrefixOf]
    simp only [beq_self_eq_true, Bool.true_and]
    exact ih

theorem containsSeq_append_of (pat : List Char) :
    ∀ pre l, containsSeq pat l = true → containsSeq pat (pre ++ l) = true := by
  intro pre
  induction pre with
  | nil => intro l h; exact h
  | cons c cs ih =>
    intro l h
    rw [List.cons_append, containsSeq, Bool.or_eq_true]
    exact Or.inr (ih l h)

theorem containsSeq_of_prefix (pat : List Char) :
    ∀ l, List.isPrefixOf pat l = true → containsSeq pat l = true := by
  intro l hp
  match l with
  | [] =>
    rw [containsSeq]
    cases pat with
    | nil => rfl
    | cons c cs => simp [List.isPrefixOf] at hp
  | c :: rest =>
    rw [containsSeq, Bool.or_eq_true]
    exact Or.inl hp

theorem containsSeq_head_not_mem (c : Char) (pat : List Char) :
    ∀ l, c ∉ l → containsSeq (c :: pat) l = false := by
  intro l
  induction l with
  | nil => intro _; rfl
  | cons h rest ih =>
    intro hnm
    rw [containsSeq, List.isPrefixOf]
    have hch : (c == h) = false := by
      rw [beq_eq_false_iff_ne]
      intro he
      exact hnm (he ▸ List.mem_cons_self h rest)
    rw [hch, Bool.false_and, Bool.false_or]
    exact ih (fun hm => hnm (List.mem_cons_of_mem h hm))

theorem kvName_decoder_contains (layer : Nat) (kv : String) :
    containsSeq "decoder".toList (kvName layer "decoder" kv) = true := by
  rw [kvName]
  rw [show ('.' :: ("decoder".toList ++ '.' :: kv.toList)) =
    ['.'] ++ ("decoder".toList ++ '.' :: kv.toList) from rfl]
  rw [← List.append_assoc]
  apply containsSeq_append_of
  exact containsSeq_of_prefix _ _ (isPrefixOf_append_self _ _)

theorem containsSeq_cons_no_head (c : Char) (pat : List Char) :
    ∀ pre l, c ∉ pre →
      containsSeq (c :: pat) (pre ++ l) = containsSeq (c :: pat) l := by
  intro pre
  induction pre with
  | nil => intro l _; rfl
  | cons h rest ih =>
    intro l hnm
    rw [List.cons_append, containsSeq, List.isPrefixOf]
    have hch : (c == h) = false := by
      rw [beq_eq_false_iff_ne]
      intro he
      exact hnm (he ▸ List.mem_cons_self h rest)
    rw [hch, Bool.false_and, Bool.false_or]
    exact ih l (fun hm => hnm (List.mem_cons_of_mem h hm))

theorem containsSeq_dot_encoder (kv : List Char) (hkv : 'd' ∉ kv) :
    containsSeq "decoder".toList ('.' :: ("encoder".toList ++ '.' :: kv)) = false := by
  show containsSeq "decoder".toList
    ('.' :: 'e' :: 'n' :: 'c' :: 'o' :: 'd' :: 'e' :: 'r' :: '.' :: kv) = false
  rw [show "decoder".toList = 'd' :: "ecoder".toList from rfl]
  rw [show ('.' :: 'e' :: 'n' :: 'c' :: 'o' :: 'd' :: 'e' :: 'r' :: '.' :: kv) =
    ['.', 'e', 'n', 'c', 'o'] ++ ('d' :: 'e' :: 'r' :: '.' :: kv) from rfl]
  rw [containsSeq_cons_no_head _ _ _ _ (by decide)]
  rw [containsSeq, List.isPrefixOf]
  rw [show "ecoder".toList = 'e' :: "coder".toList from rfl, List.isPrefixOf]
  rw [show "coder".toList = 'c' :: "oder".toList from rfl, List.isPrefixOf]
  rw [show (('d' : Char) == 'd') = true from rfl,
    show (('e' : Char) == 'e') = true from rfl,
    show (('c' : Char) == 'r') = false from rfl]
  rw [Bool.false_and, Bool.and_false, Bool.and_false, Bool.false_or]
  rw [show ('e' :: 'r' :: '.' :: kv) = ['e', 'r', '.'] ++ kv from rfl]
  rw [containsSeq_cons_no_head _ _ _ _ (by decide)]
  exact containsSeq_head_not_mem _ _ kv hkv

theorem kvName_encoder_not_contains (layer : Nat) (kv : String)
    (hkv : 'd' ∉ kv.toList) :
    containsSeq "decoder".toList (kvName layer "encoder" kv) = false := by
  rw [kvName, List.append_assoc]
  rw [show "decoder".toList = 'd' :: "ecoder".toList from rfl]
  rw [containsSeq_cons_no_head _ _ _ _ (by decide)]
  rw [containsSeq_cons_no_head _ _ _ _ (natChars_no_d layer)]
  rw [show ('d' :: "ecoder".toList) = "decoder".toList from rfl]
  exact containsSeq_dot_encoder kv.toList hkv

theorem updateKv_get_not_decoder (outs : List (List Int × List ℚ)) :
    ∀ (kv : List KvEntry) (j i : Nat) (e : KvEntry), kv[i]? = some e →
      containsSeq "decoder".toList e.name = false →
      (updateKv true outs j kv)[i]? = some e := by
  intro kv
  induction kv with
  | nil => intro j i e h; rw [List.getElem?_nil] at h; exact absurd h (by simp)
  | cons hd rest ih =>
    intro j i e hget hinf
    match i with
    | 0 =>
      rw [List.getElem?_cons_zero, Option.some.injEq] at hget
      subst hget
      rw [updateKv, List.getElem?_cons_zero, Option.some.injEq]
      by_cases hj : j + 1 < outs.length + 1
      · rw [if_pos hj, Bool.not_true, Bool.false_or, hinf, if_neg Bool.false_ne_true]
      · rw [if_neg hj]
    | i + 1 =>
      rw [List.getElem?_cons_succ] at hget
      rw [updateKv, List.getElem?_cons_succ]
      exact ih (j + 1) i e hget hinf

theorem updateKv_get_refresh (outs : List (List Int × List ℚ)) :
    ∀ (kv : List KvEntry) (j i : Nat) (e : KvEntry), kv[i]? = some e → j + i < outs.length →
      (updateKv false outs j kv)[i]? =
        some { e with shape := (outs.getD (j + i) ([], [])).1,
                      data := (outs.getD (j + i) ([], [])).2 } := by
  intro kv
  induction kv with
  | nil => intro j i e h; rw [List.getElem?_nil] at h; exact absurd h (by simp)
  | cons hd rest ih =>
    intro j i e hget hlt
    match i with
    | 0 =>
      rw [List.getElem?_cons_zero, Option.some.injEq] at hget
      subst hget
      rw [updateKv, List.getElem?_cons_zero, Option.some.injEq,
        if_pos (by omega : j + 1 < outs.length + 1), Bool.not_false, Bool.true_or,
        if_pos rfl, Nat.add_zero]
    | i + 1 =>
      rw [List.getElem?_cons_succ] at hget
      rw [updateKv, List.getElem?_cons_succ,
        show j + (i + 1) = (j + 1) + i from by omega] at *
      exact ih (j + 1) i e hget (by omega)

theorem decodeStep_preserve (eos : Int)
    (oracle : Nat → Bool → Int → List KvEntry → DecoderOutputs)
    (st : DecodeState) (step : Nat) (i : Nat) (e : KvEntry)
    (hstep : 1 ≤ step) (hget : st.kv[i]? = some e)
    (hinf : containsSeq "decoder".toList e.name = false) :
    (decodeStep eos oracle st step).kv[i]? = some e := by
  rw [decodeStep]
  by_cases hf : st.finished
  · rw [if_pos hf]; exact hget
  · rw [if_neg hf, decodeStepRun]
    have huc : decide (0 < step) = true := decide_eq_true (by omega)
    rw [huc]
    by_cases hnt : nextToken eos
        (oracle step true (st.tokens.getLast?.getD 0) st.kv).logitsShape
        (oracle step true (st.tokens.getLast?.getD 0) st.kv).logitsData = eos
    · rw [if_pos hnt]; exact hget
    · rw [if_neg hnt]
      exact updateKv_get_not_decoder _ st.kv 0 i e hget hinf

theorem foldl_decodeStep_preserve (eos : Int)
    (oracle : Nat → Bool → Int → List KvEntry → DecoderOutputs) :
    ∀ (steps : List Nat) (st : DecodeState) (i : Nat) (e : KvEntry),
      (∀ s ∈ steps, 1 ≤ s) → st.kv[i]? = some e →
      containsSeq "decoder".toList e.name = false →
      (steps.foldl (decodeStep eos oracle) st).kv[i]? = some e := by
  intro steps
  induction steps with
  | nil => intro st i e _ hget _; exact hget
  | cons s rest ih =>
    intro st i e hmem hget hinf
    rw [List.foldl_cons]
    exact ih (decodeStep eos oracle st s) i e
      (fun x hx => hmem x (List.mem_cons_of_mem s hx))
      (decodeStep_preserve eos oracle st s i e
        (hmem s (List.mem_cons_self s rest)) hget hinf)
      hinf

/-- C5. `transcribe` initializes the KV cache with exactly `2*2*num_layers`
entries named `past_key_values.{layer}.{decoder|encoder}.{key|value}`, each of
shape `[1, num_heads, 1, dim_kv]` and zero-filled; after step 0 (`use_cache`
true) every entry whose name does not contain `"decoder"` — in particular every
encoder-module entry, whose name never contains it — keeps the value it was
given at step 0 for the remainder of the decode loop, while decoder names do
contain `"decoder"`; and at step 0 itself (`use_cache` false, no eos break,
enough session outputs) every entry is refreshed from the session outputs. -/
theorem kv_cache_discipline (numLayers numHeads dk : Nat) (eos : Int)
    (oracle : Nat → Bool → Int → List KvEntry → DecoderOutputs) :
    (initKvCache numLayers numHeads dk).length = 2 * 2 * numLayers ∧
    (∀ e ∈ initKvCache numLayers numHeads dk,
      e.shape = [1, (numHeads : Int), 1, (dk : Int)] ∧
      e.data = List.replicate (numHeads * dk) 0) ∧
    (∀ layer, layer < numLayers →
      ((initKvCache numLayers numHeads dk)[4 * layer]? = some
        { name := kvName layer "decoder" "key",
          shape := [1, (numHeads : Int), 1, (dk : Int)],
          data := List.replicate (numHeads * dk) 0 } ∧
       (initKvCache numLayers numHeads dk)[4 * layer + 1]? = some
        { name := kvName layer "decoder" "value",
          shape := [1, (numHeads : Int), 1, (dk : Int)],
          data := List.replicate (numHeads * dk) 0 } ∧
       (initKvCache numLayers numHeads dk)[4 * layer + 2]? = some
        { name := kvName layer "encoder" "key",
          shape := [1, (numHeads : Int), 1, (dk : Int)],
          data := List.replicate (numHeads * dk) 0 } ∧
       (initKvCache numLayers numHeads dk)[4 * layer + 3]? = some
        { name := kvName layer "encoder" "value",
          shape := [1, (numHeads : Int), 1, (dk : Int)],
          data := List.replicate (numHeads * dk) 0 })) ∧
    (∀ (layer : Nat) (kv : String),
      containsSeq "decoder".toList (kvName layer "decoder" kv) = true) ∧
    (∀ (layer : Nat) (kv : String), 'd' ∉ kv.toList →
      containsSeq "decoder".toList (kvName layer "encoder" kv) = false) ∧
    (∀ (maxLen : Nat) (st0 : DecodeState) (i : Nat) (e : KvEntry),
      (decodeStep eos oracle st0 0).kv[i]? = some e →
      containsSeq "decoder".toList e.name = false →
      (runDecode eos oracle (maxLen + 1) st0).kv[i]? = some e) ∧
    (∀ (st0 : DecodeState) (i : Nat) (e : KvEntry),
      st0.finished = false →
      nextToken eos (oracle 0 false (st0.tokens.getLast?.getD 0) st0.kv).logitsShape
        (oracle 0 false (st0.tokens.getLast?.getD 0) st0.kv).logitsData ≠ eos →
      i < (oracle 0 false (st0.tokens.getLast?.getD 0) st0.kv).kvOuts.length →
      st0.kv[i]? = some e →
      (decodeStep eos oracle st0 0).kv[i]? = some
        { e with
          shape := ((oracle 0 false (st0.tokens.getLast?.getD 0) st0.kv).kvOuts.getD
            i ([], [])).1,
          data := ((oracle 0 false (st0.tokens.getLast?.getD 0) st0.kv).kvOuts.getD
            i ([], [])).2 }) := by
  refine ⟨initKvCache_length numLayers numHeads dk,
    initKvCache_mem numLayers numHeads dk, ?_, ?_, ?_, ?_, ?_⟩
  · intro layer hl
    refine ⟨?_, ?_, ?_, ?_⟩
    · have h0 := initKvCache_get4 numHeads dk numLayers layer 0 hl (by omega)
      rw [Nat.add_zero] at h0
      rw [h0]
      rfl
    · rw [initKvCache_get4 numHeads dk numLayers layer 1 hl (by omega)]
      rfl
    · rw [initKvCache_get4 numHeads dk numLayers layer 2 hl (by omega)]
      rfl
    · rw [initKvCache_get4 numHeads dk numLayers layer 3 hl (by omega)]
      rfl
  · intro layer kv
    exact kvName_decoder_contains layer kv
  · intro layer kv hkv
    exact kvName_encoder_not_contains layer kv hkv
  · intro maxLen st0 i e h1 hinf
    rw [runDecode, List.range_eq_range', List.range'_succ, List.foldl_cons]
    apply foldl_decodeStep_preserve eos oracle (List.range' (0 + 1) maxLen)
      (decodeStep eos oracle st0 0) i e ?_ h1 hinf
    intro s hs
    rw [List.mem_range'] at hs
    obtain ⟨k, _, hk⟩ := hs
    omega
  · intro st0 i e hf hnt hlt hget
    rw [decodeStep, if_neg (by rw [hf]; exact Bool.false_ne_true), decodeStepRun,
      if_neg (by exact hnt)]
    have h := updateKv_get_refresh
      (oracle 0 false (st0.tokens.getLast?.getD 0) st0.kv).kvOuts
      st0.kv 0 i e hget (by omega)
    rw [Nat.zero_add] at h
    exact h

theorem kv_cache_discipline_witness :
    (initKvCache 1 1 1).length = 2 * 2 * 1 ∧
    (runDecode 7
        (fun _ _ _ _ => ⟨[1, 1, 2], [0, 1], [([2], [2]), ([3], [3]), ([4], [4]), ([5], [5])]⟩)
        (2 + 1) ⟨[50257], initKvCache 1 1 1, false⟩).kv[2]? =
      some ⟨kvName 0 "encoder" "key", [4], [4]⟩ := by
  have h := kv_cache_discipline 1 1 1 7
    (fun _ _ _ _ => ⟨[1, 1, 2], [0, 1], [([2], [2]), ([3], [3]), ([4], [4]), ([5], [5])]⟩)
  refine ⟨h.1, ?_⟩
  exact h.2.2.2.2.2.1 2 ⟨[50257], initKvCache 1 1 1, false⟩ 2
    ⟨kvName 0 "encoder" "key", [4], [4]⟩ (by decide) (by decide)

/-! ### ASR entry point and voice-activity gate (`MoonshineEngine::transcribe`) -/

/-- `has_voice_activity`: RMS over every 4th sample (count clamped to at least
1) compared against the 0.015 threshold.  `sqrtF` abstracts `f64::sqrt`
composed with the `as f32` cast. -/
def hasVoiceActivity (sqrtF : ℚ → ℚ) (audio : List ℚ) : Bool :=
  decide ((15 / 1000 : ℚ) ≤
    sqrtF ((((every4 audio).map fun s => s * s).sum) /
      ((max (every4 audio).length 1 : Nat) : ℚ)))

/-- `normalize_audio`: scale to peak 0.95 only when the current peak lies in
`[0.01, 0.95)`; otherwise return the input unchanged. -/
def normalizeAudio (audio : List ℚ) : List ℚ :=
  let peak := (audio.map abs).foldl max 0
  if ¬((1 / 100 : ℚ) ≤ peak ∧ peak < 95 / 100) then audio
  else audio.map fun s => s * (95 / 100 / peak)

/-- Rust `str::trim`: drop Unicode whitespace from both ends. -/
def trimChars (l : List Char) : List Char :=
  (((l.dropWhile isRustWhitespace).reverse).dropWhile isRustWhitespace).reverse

/-- `MoonshineEngine::transcribe`: empty-input gate, voice-activity gate,
normalization, encoder, autoregressive decode from `decoder_start_token_id`
with `max_len = max(min((len/16000*6) as usize, max_position_embeddings), 1)`,
detokenization of the generated tokens minus the start token (each cast
`as u32`), trim, and the hallucination filter.  The ONNX sessions and the
tokenizer are abstracted as function parameters. -/
def transcribe (sqrtF : ℚ → ℚ)
    (encoder : List ℚ → List Int × List ℚ)
    (decoder : List Int × List ℚ → Nat → Bool → Int → List KvEntry → DecoderOutputs)
    (tokDecode : List Nat → List Char) (lower : List Char → List Char)
    (eosTok decStart : Int) (numLayers numHeads dk maxPos : Nat)
    (audio : List ℚ) : List Char :=
  if audio = [] then []
  else if hasVoiceActivity sqrtF audio = false then []
  else
    let normalized := normalizeAudio audio
    let enc := encoder normalized
    let maxLen := Nat.max (Nat.min (((normalized.length : ℚ) / 16000 * 6).floor.toNat) maxPos) 1
    let st := runDecode eosTok (decoder enc) maxLen
      { tokens := [decStart], kv := initKvCache numLayers numHeads dk,
        finished := false }
    let tokenIds := (st.tokens.drop 1).map fun t => (t % (2 ^ 32 : Int)).toNat
    let text := trimChars (tokDecode tokenIds)
    if isHallucination lower text then [] else text

theorem every4_subset : ∀ (l : List ℚ) (x : ℚ), x ∈ every4 l → x ∈ l
  | [], x, h => by
    rw [show every4 [] = [] from rfl] at h
    exact absurd h (List.not_mem_nil x)
  | [a], x, h => by
    rw [show every4 [a] = [a] from rfl] at h
    exact h
  | [a, b], x, h => by
    rw [show every4 [a, b] = [a] from rfl] at h
    rcases List.mem_cons.mp h with rfl | h
    · exact List.mem_cons_self x [b]
    · exact absurd h (List.not_mem_nil x)
  | [a, b, c], x, h => by
    rw [show every4 [a, b, c] = [a] from rfl] at h
    rcases List.mem_cons.mp h with rfl | h
    · exact List.mem_cons_self x [b, c]
    · exact absurd h (List.not_mem_nil x)
  | a :: b :: c :: d :: rest, x, h => by
    rw [show every4 (a :: b :: c :: d :: rest) = a :: every4 rest from rfl] at h
    rcases List.mem_cons.mp h with rfl | h
    · exact List.mem_cons_self x (b :: c :: d :: rest)
    · exact List.mem_cons_of_mem a (List.mem_cons_of_mem b
        (List.mem_cons_of_mem c (List.mem_cons_of_mem d (every4_subset rest x h))))

/-- C6. `transcribe` returns the empty string on an empty buffer; whenever the
RMS over every 4th sample is below 0.015 it returns the empty string for every
possible encoder/decoder/tokenizer (so without consulting the encoder); and on
all-zero audio of any length the output is empty (using that the square root
of 0 is 0). -/
theorem transcribe_vad_gate (sqrtF : ℚ → ℚ)
    (encoder : List ℚ → List Int × List ℚ)
    (decoder : List Int × List ℚ → Nat → Bool → Int → List KvEntry → DecoderOutputs)
    (tokDecode : List Nat → List Char) (lower : List Char → List Char)
    (eosTok decStart : Int) (numLayers numHeads dk maxPos : Nat) :
    transcribe sqrtF encoder decoder tokDecode lower eosTok decStart
      numLayers numHeads dk maxPos [] = [] ∧
    (∀ audio : List ℚ,
      sqrtF ((((every4 audio).map fun s => s * s).sum) /
        ((max (every4 audio).length 1 : Nat) : ℚ)) < 15 / 1000 →
      transcribe sqrtF encoder decoder tokDecode lower eosTok decStart
        numLayers numHeads dk maxPos audio = []) ∧
    (sqrtF 0 = 0 → ∀ n : Nat,
      transcribe sqrtF encoder decoder tokDecode lower eosTok decStart
        numLayers numHeads dk maxPos (List.replicate n 0) = []) := by
  have hgate : ∀ audio : List ℚ,
      sqrtF ((((every4 audio).map fun s => s * s).sum) /
        ((max (every4 audio).length 1 : Nat) : ℚ)) < 15 / 1000 →
      transcribe sqrtF encoder decoder tokDecode lower eosTok decStart
        numLayers numHeads dk maxPos audio = [] := by
    intro audio hrms
    by_cases ha : audio = []
    · rw [transcribe, if_pos ha]
    · rw [transcribe, if_neg ha, if_pos ?_]
      rw [hasVoiceActivity]
      exact decide_eq_false (not_le.mpr hrms)
  refine ⟨by rw [transcribe, if_pos rfl], hgate, ?_⟩
  intro hsqrt n
  apply hgate
  have hsum : (((every4 (List.replicate n (0 : ℚ))).map fun s => s * s).sum) = 0 := by
    apply List.sum_eq_zero
    intro x hx
    rw [List.mem_map] at hx
    obtain ⟨s, hs, rfl⟩ := hx
    rw [List.eq_of_mem_replicate (every4_subset _ s hs)]
    exact zero_mul 0
  rw [hsum, zero_div, hsqrt]
  norm_num

theorem transcribe_vad_gate_witness :
    transcribe (fun q => q) (fun _ => ([], [])) (fun _ _ _ _ _ => ⟨[], [], []⟩)
      (fun _ => []) (fun l => l) 0 0 0 0 0 0 [] = [] ∧
    transcribe (fun q => q) (fun _ => ([], [])) (fun _ _ _ _ _ => ⟨[], [], []⟩)
      (fun _ => []) (fun l => l) 0 0 0 0 0 0 (List.replicate 5 0) = [] := by
  have h := transcribe_vad_gate (fun q => q) (fun _ => ([], []))
    (fun _ _ _ _ _ => ⟨[], [], []⟩) (fun _ => []) (fun l => l) 0 0 0 0 0 0
  exact ⟨h.1, h.2.2 rfl 5⟩

end RecordScreen
